import Mathlib

/-!
Verification development for the tunnel inspection-lot application
(repository `tunnel-inspection`).  The definitions below are a shallow
embedding of the Python source, primarily `src/streamlit_app_v12.py`
(the most complete prototype iteration, which the claims cite): the
chainage utility (`parse_mileage` / `format_mileage`), the domain model
(`TunnelSegment` / `Tunnel` / `Project`), the JSON import/export pair,
and the `InspectionCalculator` rule engine.  Python floats are modelled
as exact rationals; Python strings as Lean strings.
-/

namespace TunnelInspection

/-! ### Decimal digit rendering and reading

Helper machinery shared by the embeddings of Python string formatting
(`str(n)`, `"%03d"`, `"{:.3f}"`) and of `int(...)` / `float(...)`. -/

/-- Round to the nearest integer, halves up: `⌊q + 1/2⌋` on exact
rationals (used to model decimal rounding in Python string formatting;
every claim evaluates it away from ties, where all tie rules agree). -/
def ratRound (q : ℚ) : ℤ := (q + 1 / 2).floor

/-- Character for a decimal digit value `d < 10`, code point `48 + d`. -/
def digitChar (d : ℕ) : Char := Char.ofNat (48 + d)

/-- Little-endian digit extraction with explicit fuel (structural
recursion so that concrete instances reduce in the kernel). -/
def natDigitsRevFuel : ℕ → ℕ → List ℕ
  | 0, _ => []
  | _ + 1, 0 => []
  | fuel + 1, n + 1 => ((n + 1) % 10) :: natDigitsRevFuel fuel ((n + 1) / 10)

/-- Little-endian list of the decimal digit values of `n` (empty for `0`). -/
def natDigitsRev (n : ℕ) : List ℕ := natDigitsRevFuel n n

/-- Big-endian decimal digit characters of `n`, with `"0"` for zero —
the rendering Python `str` applies to a non-negative integer. -/
def natDigits (n : ℕ) : List Char :=
  if n = 0 then [digitChar 0] else (natDigitsRev n).reverse.map digitChar

/-- Exactly-three-digit zero-padded rendering of `n < 1000`, as produced for
the fractional part of Python `"{x:.3f}"`. -/
def pad3 (n : ℕ) : List Char :=
  [digitChar (n / 100 % 10), digitChar (n / 10 % 10), digitChar (n % 10)]

/-- Python `"{n:03d}"`: decimal digits left-padded with zeros to width 3,
the sign (when present) counting toward the width. -/
def zfill3 (n : ℤ) : List Char :=
  if n < 0 then
    '-' :: (List.replicate (2 - (natDigits n.natAbs).length) '0' ++ natDigits n.natAbs)
  else
    List.replicate (3 - (natDigits n.toNat).length) '0' ++ natDigits n.toNat

/-- Numeric value of a digit character. -/
def charVal (c : Char) : ℕ := c.toNat - 48

/-- Value of a big-endian digit-character list. -/
def digitsVal (s : List Char) : ℕ := s.foldl (fun a c => 10 * a + charVal c) 0

/-- Python `int(text)` on a string consisting of an optional minus sign
followed by decimal digits; `none` models `ValueError`. -/
def pyInt (s : List Char) : Option ℤ :=
  match s with
  | [] => none
  | c :: t =>
    if c = '-' then
      if t ≠ [] ∧ t.all Char.isDigit then some (-(digitsVal t : ℤ)) else none
    else
      if (c :: t).all Char.isDigit then some (digitsVal (c :: t) : ℤ) else none

/-- Unsigned part of Python `float(text)` restricted to plain decimal forms
(`digits`, `digits.digits`, `.digits`, `digits.`); `none` models
`ValueError`.  Exponent and special float forms never arise in this
application's data and are not modelled. -/
def pyFloatCore (s : List Char) : Option ℚ :=
  if s.contains '.' then
    if ((s.dropWhile (fun c => c ≠ '.')).tail).contains '.' then none
    else if (s.takeWhile (fun c => c ≠ '.') ≠ [] ∨ (s.dropWhile (fun c => c ≠ '.')).tail ≠ []) ∧
        (s.takeWhile (fun c => c ≠ '.')).all Char.isDigit ∧
        ((s.dropWhile (fun c => c ≠ '.')).tail).all Char.isDigit then
      some ((digitsVal (s.takeWhile (fun c => c ≠ '.')) : ℚ) +
        (digitsVal ((s.dropWhile (fun c => c ≠ '.')).tail) : ℚ) /
          (10 : ℚ) ^ ((s.dropWhile (fun c => c ≠ '.')).tail).length)
    else none
  else if s ≠ [] ∧ s.all Char.isDigit then some ((digitsVal s : ℚ)) else none

/-- Python `float(text)` (same decimal-form restriction as `pyFloatCore`). -/
def pyFloat (s : List Char) : Option ℚ :=
  match s with
  | [] => none
  | c :: t =>
    if c = '-' then (pyFloatCore t).map (fun q => -q)
    else if c = '+' then pyFloatCore t
    else pyFloatCore (c :: t)

/-- Python `text.split(sep)` for a one-character separator. -/
def splitOnChar (c : Char) : List Char → List (List Char)
  | [] => [[]]
  | x :: xs =>
    if x = c then [] :: splitOnChar c xs
    else
      match splitOnChar c xs with
      | [] => [[x]]
      | h :: t => (x :: h) :: t

/-- Python `text.strip()`: drop leading and trailing whitespace. -/
def pyStrip (s : List Char) : List Char :=
  ((s.dropWhile Char.isWhitespace).reverse.dropWhile Char.isWhitespace).reverse

/-! ### Chainage utility (`streamlit_app_v12.py`, lines 87–103) -/

/-- Embedding of `parse_mileage` (`streamlit_app_v12.py` lines 87–95):
strip, uppercase, delete every `K`; if a `+` is present, the part before the
first `+` is filtered to digits and minus signs and read as an integer
kilometer count, the part after it is read as a real number of meters, and
the result is `km * 1000 + m`; otherwise the whole string is read as a
plain real.  Any conversion failure yields `0` (the bare `except` branch). -/
def parse_mileage (s : String) : ℚ :=
  let s1 := ((pyStrip s.toList).map Char.toUpper).filter (fun c => c ≠ 'K')
  if s1.contains '+' then
    let parts := splitOnChar '+' s1
    let p1 := (parts.headD []).filter (fun c => c.isDigit || c = '-')
    match pyInt p1, pyFloat ((parts.drop 1).headD []) with
    | some k, some f => (k : ℚ) * 1000 + f
    | _, _ => 0
  else (pyFloat s1).getD 0

/-- Embedding of `format_mileage` (`streamlit_app_v12.py` lines 97–103):
sign from the input's sign, `km = int(|m| / 1000)`, remainder `|m| % 1000`
rendered as `"{r:.3f}"` (three decimals, no zero-padding of the integer
part).  Meters are exact rationals, so the `pd.isna` NaN guard has no
counterpart; the rounding of `"{r:.3f}"` is modelled as round-to-nearest of
`r * 1000`, which agrees with the source at every input that is exact at
three decimals (the only inputs the claims evaluate). -/
def format_mileage (m : ℚ) : String :=
  let sign : List Char := if m < 0 then ['-'] else []
  let a := |m|
  let km : ℕ := ((a / 1000).floor).toNat
  let mRem : ℚ := a - 1000 * (km : ℚ)
  let milli : ℕ := (ratRound (mRem * 1000)).toNat
  String.mk (sign ++ 'K' :: (natDigits km ++ '+' :: (natDigits (milli / 1000) ++ '.' :: pad3 (milli % 1000))))

/-- Closed-form description of `format_mileage` at inputs exact at three
decimals: `z` is the chainage in integer thousandths of a meter.  The
meters component is rendered with its natural number of integer digits
(no zero-padding). -/
def formatNoPad (z : ℤ) : String :=
  String.mk ((if z < 0 then ['-'] else []) ++ 'K' :: (natDigits (z.natAbs / 1000000) ++
    '+' :: (natDigits (z.natAbs % 1000000 / 1000) ++ '.' :: pad3 (z.natAbs % 1000))))

/-- Modelled from the spec's words (§4.1, claim C9): renders
`"{sign}K{km}+{m:07.3f}"`, i.e. the meters component zero-padded to three
integer digits before the three decimals.  `z` is the chainage in integer
thousandths of a meter.  Stated only to be compared against the source's
`format_mileage`. -/
def format_chainage_spec (z : ℤ) : String :=
  String.mk ((if z < 0 then ['-'] else []) ++ 'K' :: natDigits (z.natAbs / 1000000) ++
    '+' :: (List.replicate (3 - (natDigits (z.natAbs % 1000000 / 1000)).length) '0' ++
      natDigits (z.natAbs % 1000000 / 1000)) ++ '.' :: pad3 (z.natAbs % 1000))

/-! ### Domain model (`streamlit_app_v12.py`, lines 54–85)

The three dataclasses, with Python `float` as `ℚ` and `int` as `ℤ`. -/

/-- Embedding of the `TunnelSegment` dataclass. -/
structure TunnelSegment where
  name : String
  method : String
  length : ℚ
  start_mileage : ℚ
  end_mileage : ℚ
  frame_spacing : ℚ := 8 / 10
  frames_per_ring : ℤ := 2
  steps : ℤ := 2
  trolley_length : ℚ := 12
  advance_per_cycle : ℚ := 16 / 10
  lining_type : String := ""
deriving DecidableEq, Repr

/-- Embedding of the `Tunnel` dataclass. -/
structure Tunnel where
  id : String
  name : String
  total_length : ℚ
  start_mileage : ℚ
  end_mileage : ℚ
  start_label : String
  end_label : String
  is_main_line : Bool
  trolley_length : ℚ := 12
  direction : String := "正向"
  segments : List TunnelSegment := []
deriving DecidableEq, Repr

/-- Embedding of the `Project` dataclass. -/
structure Project where
  name : String
  created_at : String
  tunnels : List Tunnel := []
deriving DecidableEq, Repr

/-! ### Persistence (`streamlit_app_v12.py`, lines 105–119)

`export_project_to_json` is `json.dumps(asdict(project))` and
`import_project_from_json` is `json.loads` followed by dataclass
reconstruction.  The JSON text layer (`dumps` / `loads`, which are exact
inverses on these documents) is abstracted away: both directions are
modelled on the JSON value tree. -/

/-- JSON values as produced by `asdict` on this data model. -/
inductive JValue where
  | jstr (s : String)
  | jnum (q : ℚ)
  | jbool (b : Bool)
  | jarr (xs : List JValue)
  | jobj (fields : List (String × JValue))

/-- First binding of a key in a JSON object (Python dict lookup). -/
def jLookup (fields : List (String × JValue)) (k : String) : Option JValue :=
  (fields.find? (fun f => f.1 = k)).map (fun f => f.2)

/-- Decode a JSON string. -/
def asStr : JValue → Option String
  | JValue.jstr s => some s
  | _ => none

/-- Decode a JSON number as a rational (Python float field). -/
def asNum : JValue → Option ℚ
  | JValue.jnum q => some q
  | _ => none

/-- Decode a JSON number as an integer (Python int field). -/
def asInt : JValue → Option ℤ
  | JValue.jnum q => if q.den = 1 then some q.num else none
  | _ => none

/-- Decode a JSON boolean. -/
def asBool : JValue → Option Bool
  | JValue.jbool b => some b
  | _ => none

/-- Decode a JSON array. -/
def asArr : JValue → Option (List JValue)
  | JValue.jarr xs => some xs
  | _ => none

/-- Decode an optional field: absent means the dataclass default, present
must decode at the field's declared type. -/
def fieldD {α : Type} (dec : JValue → Option α) (fields : List (String × JValue))
    (k : String) (dflt : α) : Option α :=
  match jLookup fields k with
  | none => some dflt
  | some v => dec v

/-- `asdict` on a `TunnelSegment`(field order is declaration order). -/
def segToJson (s : TunnelSegment) : JValue :=
  JValue.jobj [("name", JValue.jstr s.name), ("method", JValue.jstr s.method),
    ("length", JValue.jnum s.length), ("start_mileage", JValue.jnum s.start_mileage),
    ("end_mileage", JValue.jnum s.end_mileage), ("frame_spacing", JValue.jnum s.frame_spacing),
    ("frames_per_ring", JValue.jnum (s.frames_per_ring : ℚ)), ("steps", JValue.jnum (s.steps : ℚ)),
    ("trolley_length", JValue.jnum s.trolley_length),
    ("advance_per_cycle", JValue.jnum s.advance_per_cycle),
    ("lining_type", JValue.jstr s.lining_type)]

/-- `asdict` on a `Tunnel`. -/
def tunnelToJson (t : Tunnel) : JValue :=
  JValue.jobj [("id", JValue.jstr t.id), ("name", JValue.jstr t.name),
    ("total_length", JValue.jnum t.total_length), ("start_mileage", JValue.jnum t.start_mileage),
    ("end_mileage", JValue.jnum t.end_mileage), ("start_label", JValue.jstr t.start_label),
    ("end_label", JValue.jstr t.end_label), ("is_main_line", JValue.jbool t.is_main_line),
    ("trolley_length", JValue.jnum t.trolley_length), ("direction", JValue.jstr t.direction),
    ("segments", JValue.jarr (t.segments.map segToJson))]

/-- Embedding of `export_project_to_json` (line 105–106): the JSON document
`json.dumps` serializes, as a value tree. -/
def export_project_to_json (p : Project) : JValue :=
  JValue.jobj [("name", JValue.jstr p.name), ("created_at", JValue.jstr p.created_at),
    ("tunnels", JValue.jarr (p.tunnels.map tunnelToJson))]

/-- `TunnelSegment(**s)`: required fields must be present and well-typed,
defaulted fields fall back to the dataclass defaults.  (Python would accept
a wrongly-typed present value without checking; decoding here is at the
declared types, which coincides on every document `export` produces.) -/
def segFromJson (j : JValue) : Option TunnelSegment := do
  match j with
  | JValue.jobj fs => do
    let name ← jLookup fs "name" >>= asStr
    let method ← jLookup fs "method" >>= asStr
    let length ← jLookup fs "length" >>= asNum
    let start ← jLookup fs "start_mileage" >>= asNum
    let stop ← jLookup fs "end_mileage" >>= asNum
    let frame_spacing ← fieldD asNum fs "frame_spacing" (8 / 10)
    let frames_per_ring ← fieldD asInt fs "frames_per_ring" 2
    let steps ← fieldD asInt fs "steps" 2
    let trolley_length ← fieldD asNum fs "trolley_length" 12
    let advance_per_cycle ← fieldD asNum fs "advance_per_cycle" (16 / 10)
    let lining_type ← fieldD asStr fs "lining_type" ""
    pure ⟨name, method, length, start, stop, frame_spacing, frames_per_ring, steps,
      trolley_length, advance_per_cycle, lining_type⟩
  | _ => none

/-- `Tunnel(segments=segments, **t_data_clean)` after
`t_data.get('segments', [])` (lines 111–114). -/
def tunnelFromJson (j : JValue) : Option Tunnel := do
  match j with
  | JValue.jobj fs => do
    let segJs ← match jLookup fs "segments" with
      | none => some []
      | some v => asArr v
    let segments ← segJs.mapM segFromJson
    let id ← jLookup fs "id" >>= asStr
    let name ← jLookup fs "name" >>= asStr
    let total_length ← jLookup fs "total_length" >>= asNum
    let start ← jLookup fs "start_mileage" >>= asNum
    let stop ← jLookup fs "end_mileage" >>= asNum
    let start_label ← jLookup fs "start_label" >>= asStr
    let end_label ← jLookup fs "end_label" >>= asStr
    let is_main_line ← jLookup fs "is_main_line" >>= asBool
    let trolley_length ← fieldD asNum fs "trolley_length" 12
    let direction ← fieldD asStr fs "direction" "正向"
    pure ⟨id, name, total_length, start, stop, start_label, end_label, is_main_line,
      trolley_length, direction, segments⟩
  | _ => none

/-- Embedding of `import_project_from_json` (lines 108–119) on the parsed
JSON value; `now` stands for `datetime.now().strftime(...)`, the default
used when `created_at` is absent.  `none` models the `except` branch
(parse failure reported to the user, session state untouched). -/
def import_project_from_json (now : String) (j : JValue) : Option Project := do
  match j with
  | JValue.jobj fs => do
    let tunnelJs ← match jLookup fs "tunnels" with
      | none => some []
      | some v => asArr v
    let tunnels ← tunnelJs.mapM tunnelFromJson
    let name ← jLookup fs "name" >>= asStr
    let created_at ← fieldD asStr fs "created_at" now
    pure ⟨name, created_at, tunnels⟩
  | _ => none

/-! ### Inspection-lot calculator (`streamlit_app_v12.py`, lines 455–595)

The `InspectionCalculator` class.  Its fixed `DIVISIONS` table, the
`_generate_batch_code` / `_add_batch` helpers and the per-tunnel
generation loops of `calculate_single_tunnel` are embedded below.  The
sequence of `_add_batch` invocations a tunnel triggers is made explicit as
a list of `AddSpec` argument records (in source order), folded over the
result state — the fold is exactly the source's series of calls. -/

/-- The `DIVISIONS` class attribute: division code, division name, and the
items table (item code, item name, formula note, main-clause reference,
general-clause reference). -/
def DIVISIONS : List (String × String × List (String × String × String × String × String)) :=
  [("01", "01 加固处理", [("01", "01 危岩处治", "每洞口1处", "-", "-")]),
   ("02", "02 洞口工程",
     [("01", "01 边坡、基槽(洞口开挖)", "每洞口1批", "6.2.1~6.2.2", "6.2.3~6.2.4"),
      ("02", "02 支护", "每洞口3批(锚/网/喷)", "6.6.1~6.6.2", "-"),
      ("03", "03 导向墙(含洞门)", "每洞口3批(模/筋/砼)", "6.4.1~6.4.4", "6.4.5~6.4.6"),
      ("04", "04 回填", "每洞口1批", "6.5.1~6.5.2", "6.5.3")]),
   ("03", "03 超前支护",
     [("01", "01 超前锚杆", "每洞口1批", "8.8.1~8.8.3", "8.8.4~8.8.5"),
      ("02", "02 超前小导管", "每洞口1批", "8.3.1~8.3.4", "8.3.5"),
      ("03", "03 超前注浆", "每洞口1批", "8.5.1~8.5.3", "8.5.4")]),
   ("04", "04 洞身开挖",
     [("01", "01 CD法", "循环数×4步", "7.2.1~7.2.3", "-"),
      ("02", "02 台阶法", "循环数×2步", "7.2.1~7.2.3", "-")]),
   ("05", "05 初期支护",
     [("01", "01 锚杆", "循环数×4", "8.8.1~8.8.3", "8.8.4~8.8.5"),
      ("02", "02 钢架", "循环数×4", "8.9.1~8.9.3", "8.9.4"),
      ("03", "03 钢筋网", "循环数×4", "8.7.1~8.7.2", "8.7.3"),
      ("04", "04 喷射混凝土", "循环数×4", "8.6.1~8.6.3", "8.6.4")]),
   ("06", "06 衬砌工程",
     [("01", "01 仰拱(底板)和填充", "环数×3(模/筋/砼)", "9.2.1~9.2.6", "9.2.7~9.2.8"),
      ("02", "02 拱墙衬砌", "环数×3(模/筋/砼)", "9.3.1~9.3.7", "9.3.8~9.3.10")]),
   ("07", "07 防水排水",
     [("01", "01 防水板", "环数", "10.3.1~10.3.5", "10.3.6~10.3.7"),
      ("02", "02 排水管(盲管)", "环数", "10.7.1~10.7.4", "10.7.5"),
      ("03", "03 止水带(施工缝)", "环数", "10.5.1~10.5.3", "10.5.4")]),
   ("08", "08 附属工程",
     [("01", "01 排水沟", "环数", "10.8.1~10.8.5", "10.8.6~10.8.7"),
      ("02", "02 电缆沟", "环数", "12.4.1~12.4.3", "12.4.4~12.4.5"),
      ("03", "03 路面装饰", "环数", "-", "-"),
      ("04", "04 检修道", "环数", "-", "-")])]

/-- Lookup `DIVISIONS[d]['name']`. -/
def divName (d : String) : String :=
  ((DIVISIONS.find? (fun e => e.1 = d)).map (fun e => e.2.1)).getD ""

/-- Lookup `DIVISIONS[d]['items']`. -/
def divItems (d : String) : List (String × String × String × String × String) :=
  ((DIVISIONS.find? (fun e => e.1 = d)).map (fun e => e.2.2)).getD []

/-- Lookup `DIVISIONS[d]['items'][i]`. -/
def itemEntry (d i : String) : Option (String × String × String × String × String) :=
  (divItems d).find? (fun e => e.1 = i)

/-- Lookup `DIVISIONS[d]['items'][i]['name']`. -/
def itemName (d i : String) : String := ((itemEntry d i).map (fun e => e.2.1)).getD ""

/-- Lookup `DIVISIONS[d]['items'][i]['main']`. -/
def itemMain (d i : String) : String := ((itemEntry d i).map (fun e => e.2.2.2.1)).getD ""

/-- Lookup `DIVISIONS[d]['items'][i]['gen']`. -/
def itemGen (d i : String) : String := ((itemEntry d i).map (fun e => e.2.2.2.2)).getD ""

/-- The division codes, in table order. -/
def divisionCodes : List String := DIVISIONS.map (fun e => e.1)

/-- The valid (division, item) code pairs of the `DIVISIONS` table. -/
def validKeys : List (String × String) :=
  DIVISIONS.flatMap (fun e => e.2.2.map (fun it => (e.1, it.1)))

/-- One record of `_add_batch` arguments: division code, item code,
sequence number, remark, and the chainage range (both `0` for the
point-like portal lots, the Python default arguments). -/
structure AddSpec where
  d : String
  i : String
  seq : ℤ
  remark : String
  startM : ℚ := 0
  endM : ℚ := 0
deriving DecidableEq, Repr

/-- A generated inspection lot, the dict built by `_add_batch` — plus the
`d`/`i`/`seq` components it was generated from, which the source keeps
implicitly (as the nested-dict position and inside `code`). -/
structure InspectionBatch where
  code : String
  tunnel : String
  div_name : String
  item_name : String
  remark : String
  mileage_str : String
  length : ℚ
  main : String
  gen : String
  d : String
  i : String
  seq : ℤ
deriving DecidableEq, Repr

/-- Python `round(q, 3)` on the exact rationals of this model
(round-to-nearest; the claims only evaluate it where no tie arises). -/
def roundTo3 (q : ℚ) : ℚ := ((ratRound (q * 1000) : ℤ) : ℚ) / 1000

/-- `_generate_batch_code` (lines 490–491). -/
def generate_batch_code (tid d i : String) (seq : ℤ) : String :=
  tid ++ "-" ++ d ++ "-" ++ i ++ "-" ++ String.mk (zfill3 seq)

/-- The batch dict `_add_batch` builds (lines 493–505). -/
def mkBatch (tname tid : String) (a : AddSpec) : InspectionBatch :=
  { code := generate_batch_code tid a.d a.i a.seq
    tunnel := tname
    div_name := divName a.d
    item_name := itemName a.d a.i
    remark := a.remark
    mileage_str := if a.startM = 0 ∧ a.endM = 0 then "K0+000"
      else format_mileage a.startM ++ "~" ++ format_mileage a.endM
    length := roundTo3 (if a.startM = 0 ∧ a.endM = 0 then 0 else |a.endM - a.startM|)
    main := itemMain a.d a.i
    gen := itemGen a.d a.i
    d := a.d
    i := a.i
    seq := a.seq }

/-- The mutable result state of `calculate_single_tunnel`: the nested
per-division/per-item batch lists (the Python dict, modelled as a total
function of the two codes — every generated lot uses a key present in
`DIVISIONS`, where the two coincide) and the flat `all_batches` list. -/
structure CalcResults where
  divisions : String → String → List InspectionBatch
  all_batches : List InspectionBatch

/-- `_add_batch` (lines 493–508): build the batch and append it both to
`results['divisions'][d]['items'][i]['batches']` and to
`results['all_batches']`. -/
def addBatch (tname tid : String) (res : CalcResults) (a : AddSpec) : CalcResults :=
  let b := mkBatch tname tid a
  { divisions := fun d i =>
      if d = a.d ∧ i = a.i then res.divisions d i ++ [b] else res.divisions d i
    all_batches := res.all_batches ++ [b] }

/-- The freshly initialised result state (lines 534–538 of the source's
init loop): every batch list empty. -/
def initResults : CalcResults := ⟨fun _ _ => [], []⟩

/-- `dir_sign = 1 if tunnel.direction == "正向" else -1` (line 540). -/
def dirSign (t : Tunnel) : ℚ := if t.direction = "正向" then 1 else -1

/-- The fixed portal / advance-support `_add_batch` calls (source section
"1. 洞口 & 超前", lines 519–531), in source order. -/
def portalAdds : List AddSpec :=
  ([("02", ["01", "04"]), ("03", ["01", "02", "03"])].flatMap (fun p =>
      p.2.flatMap (fun ic =>
        [{ d := p.1, i := ic, seq := 1, remark := "进洞口" },
         { d := p.1, i := ic, seq := 2, remark := "出洞口" }]))) ++
  ((["锚杆", "钢筋网", "喷射混凝土"].enum).flatMap (fun e =>
      [{ d := "02", i := "02", seq := (e.1 : ℤ) + 1, remark := "进洞口-" ++ e.2 },
       { d := "02", i := "02", seq := (e.1 : ℤ) + 4, remark := "出洞口-" ++ e.2 }])) ++
  ((["模板", "钢筋", "混凝土"].enum).flatMap (fun e =>
      [{ d := "02", i := "03", seq := (e.1 : ℤ) + 1, remark := "进洞口-" ++ e.2 },
       { d := "02", i := "03", seq := (e.1 : ℤ) + 4, remark := "出洞口-" ++ e.2 }]))

/-- Python `int(q)` on a real value: truncation toward zero. -/
def pyTrunc (q : ℚ) : ℤ := if 0 ≤ q then q.floor else -((-q).floor)

/-- `cycles = int(seg.length / seg.advance_per_cycle) if
seg.advance_per_cycle > 0 else 0` (line 536); `range(cycles)` of a
negative count is empty, hence the `toNat`. -/
def segCycles (seg : TunnelSegment) : ℕ :=
  if 0 < seg.advance_per_cycle then (pyTrunc (seg.length / seg.advance_per_cycle)).toNat else 0

/-- `step_names` (line 539): the per-step names of the segment's method. -/
def segStepNames (seg : TunnelSegment) : List String :=
  if seg.method = "CD法" then ["左上", "右上", "左下", "右下"] else ["上台阶", "下台阶"]

/-- `ic_exc` (line 538): excavation item code for the segment's method. -/
def segExcItem (seg : TunnelSegment) : String := if seg.method = "CD法" then "01" else "02"

/-- `base_start` (line 541). -/
def segBaseStart (dsign : ℚ) (seg : TunnelSegment) : ℚ :=
  if dsign = 1 then min seg.start_mileage seg.end_mileage
  else max seg.start_mileage seg.end_mileage

/-- The `_add_batch` calls of one excavation cycle `c` (0-based, the Python
loop variable) of a segment: per step one excavation lot (division 04)
followed by the four primary-support sub-item lots (division 05), all with
sequence `c * seg.steps + s_idx + 1` (lines 543–551). -/
def cycleAdds (dsign : ℚ) (seg : TunnelSegment) (c : ℕ) : List AddSpec :=
  let start := segBaseStart dsign seg + (c : ℚ) * seg.advance_per_cycle * dsign
  let stop := start + seg.advance_per_cycle * dsign
  (segStepNames seg).enum.flatMap (fun e =>
    { d := "04", i := segExcItem seg, seq := (c : ℤ) * seg.steps + (e.1 : ℤ) + 1,
      remark := seg.name ++ "-" ++ e.2, startM := start, endM := stop } ::
    ["01", "02", "03", "04"].map (fun icSup =>
      { d := "05", i := icSup, seq := (c : ℤ) * seg.steps + (e.1 : ℤ) + 1,
        remark := seg.name ++ "-" ++ e.2, startM := start, endM := stop }))

/-- The `_add_batch` calls one segment contributes (source section
"2. 开挖 & 初支", lines 533–551): nothing unless the method is CD法 or
台阶法, else the cycles in order. -/
def segmentAdds (dsign : ℚ) (seg : TunnelSegment) : List AddSpec :=
  if seg.method = "CD法" ∨ seg.method = "台阶法" then
    (List.range (segCycles seg)).flatMap (cycleAdds dsign seg)
  else []

/-- `rings = math.ceil(tunnel.total_length / trolley)` (line 556);
`range` of a negative count is empty, hence the `toNat`. -/
def tunnelRings (t : Tunnel) : ℕ := ((t.total_length / t.trolley_length).ceil).toNat

/-- `base_t_start` (line 557). -/
def ringBaseStart (t : Tunnel) : ℚ :=
  if dirSign t = 1 then min t.start_mileage t.end_mileage
  else max t.start_mileage t.end_mileage

/-- `base_t_end` (line 558). -/
def ringBaseEnd (t : Tunnel) : ℚ :=
  if dirSign t = 1 then max t.start_mileage t.end_mileage
  else min t.start_mileage t.end_mileage

/-- The `_add_batch` calls of lining ring `r` (0-based): the six secondary
lining lots (division 06, two zones × three sub-items, sequence
`r * 3 + idx + 1`), three waterproofing lots (division 07) and four
ancillary lots (division 08) with sequence `r + 1` (lines 560–569). -/
def ringAdds (t : Tunnel) (r : ℕ) : List AddSpec :=
  let start := ringBaseStart t + (r : ℚ) * t.trolley_length * dirSign t
  let stop := if dirSign t = 1 then min (start + t.trolley_length) (ringBaseEnd t)
    else max (start - t.trolley_length) (ringBaseEnd t)
  ((["模板", "钢筋", "混凝土"].enum).flatMap (fun e =>
    [{ d := "06", i := "01", seq := (r : ℤ) * 3 + (e.1 : ℤ) + 1,
       remark := "仰拱-" ++ e.2, startM := start, endM := stop },
     { d := "06", i := "02", seq := (r : ℤ) * 3 + (e.1 : ℤ) + 1,
       remark := "拱墙-" ++ e.2, startM := start, endM := stop }])) ++
  (["01", "02", "03"].map (fun ic =>
    { d := "07", i := ic, seq := (r : ℤ) + 1, remark := "防排水", startM := start, endM := stop })) ++
  (["01", "02", "03", "04"].map (fun ic =>
    { d := "08", i := ic, seq := (r : ℤ) + 1, remark := "附属", startM := start, endM := stop }))

/-- The `_add_batch` calls of the lining / waterproofing / ancillary pass
(source section "3. 衬砌/防排水/附属", lines 553–569): skipped outright
unless `tunnel.trolley_length > 0`. -/
def tunnelRingAdds (t : Tunnel) : List AddSpec :=
  if 0 < t.trolley_length then (List.range (tunnelRings t)).flatMap (ringAdds t) else []

/-- Every `_add_batch` call `calculate_single_tunnel` performs for a
tunnel, in source order. -/
def tunnelAdds (t : Tunnel) : List AddSpec :=
  portalAdds ++ (t.segments.flatMap (segmentAdds (dirSign t))) ++ tunnelRingAdds t

/-- Fold a series of `_add_batch` calls over a result state. -/
def applyAdds (tname tid : String) (res : CalcResults) (specs : List AddSpec) : CalcResults :=
  specs.foldl (addBatch tname tid) res

/-- Embedding of `calculate_single_tunnel` (lines 510–579): the result
state after all generation loops. -/
def calculate_single_tunnel (t : Tunnel) : CalcResults :=
  applyAdds t.name t.id initResults (tunnelAdds t)

/-- One division's subtotal (line 575):
`sum(len(i['batches']) for i in d_data['items'].values())`. -/
def divisionSubtotal (res : CalcResults) (d : String) : ℕ :=
  ((divItems d).map (fun it => (res.divisions d it.1).length)).sum

/-- The per-tunnel summary rows `results['summary']` (lines 573–577):
division name to subtotal, in table order. -/
def tunnelSummary (res : CalcResults) : List (String × ℕ) :=
  DIVISIONS.map (fun e => (e.2.1, divisionSubtotal res e.1))

/-- The per-tunnel grand total `results['summary']['合计']` (line 577). -/
def tunnelGrandTotal (res : CalcResults) : ℕ :=
  (DIVISIONS.map (fun e => divisionSubtotal res e.1)).sum

/-- The project grand total of `calculate` (lines 581–595):
`grand_total += tunnel_res['summary']['合计']` over the tunnels. -/
def calculate_grand_total (p : Project) : ℕ :=
  p.tunnels.foldl (fun acc t => acc + tunnelGrandTotal (calculate_single_tunnel t)) 0

/-- The flat detail list of `calculate`: `all_batches_flat.extend(...)`
over the tunnels. -/
def calculate_all_batches (p : Project) : List InspectionBatch :=
  p.tunnels.flatMap (fun t => (calculate_single_tunnel t).all_batches)

/-- Number of generated lots of a tunnel result carrying a given
(division, item) code pair. -/
def countDI (res : CalcResults) (d i : String) : ℕ :=
  (res.all_batches.filter (fun b => b.d = d ∧ b.i = i)).length

/-- Number of generated lots of a tunnel result whose recorded division
name (`分部工程` column) matches. -/
def countDivName (res : CalcResults) (nm : String) : ℕ :=
  (res.all_batches.filter (fun b => b.div_name = nm)).length

/-! ### Specification-side helpers and concrete test data -/

/-- Value of a little-endian digit-value list (specification helper for
reasoning about `natDigitsRev`). -/
def valLE (l : List ℕ) : ℕ := l.foldr (fun d a => d + 10 * a) 0

/-- Number of `_add_batch` argument records of a list carrying a given
division code. -/
def specCountD (specs : List AddSpec) (d : String) : ℕ :=
  (specs.filter (fun a => a.d = d)).length

/-- A bench-method segment of length 182.908 m with advance 1.6 m (the
concrete segment named by the spec's testable property 3). -/
def benchSegment182 : TunnelSegment :=
  { name := "试验段A", method := "台阶法", length := 182908 / 1000,
    start_mileage := 245102 / 1000, end_mileage := 428010 / 1000,
    steps := 2, advance_per_cycle := 16 / 10 }

/-- A CD-method segment of length 33 m with advance 0.8 m (the concrete
segment named by the spec's testable property 3). -/
def cdSegment33 : TunnelSegment :=
  { name := "试验段B", method := "CD法", length := 33,
    start_mileage := 0, end_mileage := 33, steps := 4, advance_per_cycle := 8 / 10 }

/-- A tunnel with non-positive trolley length (degenerate input for the
failure-semantics claim). -/
def degenerateTunnel : Tunnel :=
  { id := "DG", name := "退化隧道", total_length := 100, start_mileage := 0,
    end_mileage := 100, start_label := "K0+000.000", end_label := "K0+100.000",
    is_main_line := true, trolley_length := 0, direction := "正向", segments := [] }

/-- A tunnel shaped like the demo ZK main line (total length 1162.898 m,
trolley 12 m), used to witness the ring-count rule. -/
def zkTunnel : Tunnel :=
  { id := "ZK", name := "ZK左线", total_length := 1162898 / 1000,
    start_mileage := 245102 / 1000, end_mileage := 1408, start_label := "K0+245.102",
    end_label := "K1+408.000", is_main_line := true, trolley_length := 12,
    direction := "正向", segments := [] }

/-- A bench-method segment with non-positive advance (degenerate input for
the failure-semantics claim). -/
def degenerateSegment : TunnelSegment :=
  { name := "退化段", method := "台阶法", length := 10, start_mileage := 0,
    end_mileage := 10, steps := 2, advance_per_cycle := 0 }

/-- First of two identical-method one-cycle bench segments. -/
def twinSegA : TunnelSegment :=
  { name := "甲", method := "台阶法", length := 2, start_mileage := 0,
    end_mileage := 2, steps := 2, advance_per_cycle := 2 }

/-- Second of two identical-method one-cycle bench segments. -/
def twinSegB : TunnelSegment :=
  { name := "乙", method := "台阶法", length := 2, start_mileage := 2,
    end_mileage := 4, steps := 2, advance_per_cycle := 2 }

/-- A tunnel with two bench-method segments of one cycle each (and trolley
length 0, so no lining pass) — the smallest input on which the per-segment
restart of the sequence counter produces colliding lot codes. -/
def twinSegTunnel : Tunnel :=
  { id := "ZK", name := "双段隧道", total_length := 4, start_mileage := 0,
    end_mileage := 4, start_label := "K0+000.000", end_label := "K0+004.000",
    is_main_line := true, trolley_length := 0, direction := "正向",
    segments := [twinSegA, twinSegB] }

/-! ### Lemmas: decimal digit machinery -/

theorem natDigitsRevFuel_zero (f : ℕ) : natDigitsRevFuel f 0 = [] := by cases f <;> rfl

theorem natDigitsRevFuel_congr :
    ∀ n f₁ f₂, n ≤ f₁ → n ≤ f₂ → natDigitsRevFuel f₁ n = natDigitsRevFuel f₂ n := by
  intro n
  induction n using Nat.strong_induction_on with
  | _ n ih =>
    intro f₁ f₂ h₁ h₂
    cases n with
    | zero => rw [natDigitsRevFuel_zero, natDigitsRevFuel_zero]
    | succ m =>
      cases f₁ with
      | zero => omega
      | succ g₁ =>
        cases f₂ with
        | zero => omega
        | succ g₂ =>
          have hlt : (m + 1) / 10 < m + 1 := Nat.div_lt_self (Nat.succ_pos m) (by norm_num)
          simp only [natDigitsRevFuel]
          rw [ih _ hlt g₁ g₂ (by omega) (by omega)]

theorem natDigitsRev_zero : natDigitsRev 0 = [] := rfl

theorem natDigitsRev_succ (n : ℕ) :
    natDigitsRev (n + 1) = ((n + 1) % 10) :: natDigitsRev ((n + 1) / 10) := by
  have hlt : (n + 1) / 10 < n + 1 := Nat.div_lt_self (Nat.succ_pos n) (by norm_num)
  show natDigitsRevFuel (n + 1) (n + 1) = _
  simp only [natDigitsRevFuel]
  rw [natDigitsRevFuel_congr ((n + 1) / 10) n ((n + 1) / 10) (by omega) (le_refl _)]
  rfl

theorem natDigitsRev_lt_ten : ∀ n, ∀ d ∈ natDigitsRev n, d < 10 := by
  intro n
  induction n using Nat.strong_induction_on with
  | _ n ih =>
    cases n with
    | zero => intro d hd; simp [natDigitsRev_zero] at hd
    | succ m =>
      rw [natDigitsRev_succ]
      intro d hd
      rcases List.mem_cons.mp hd with h | h
      · subst h; exact Nat.mod_lt _ (by norm_num)
      · exact ih ((m + 1) / 10) (Nat.div_lt_self (Nat.succ_pos m) (by norm_num)) d h

theorem valLE_natDigitsRev : ∀ n, valLE (natDigitsRev n) = n := by
  intro n
  induction n using Nat.strong_induction_on with
  | _ n ih =>
    cases n with
    | zero => rfl
    | succ m =>
      rw [natDigitsRev_succ]
      show (m + 1) % 10 + 10 * valLE (natDigitsRev ((m + 1) / 10)) = m + 1
      rw [ih ((m + 1) / 10) (Nat.div_lt_self (Nat.succ_pos m) (by norm_num))]
      omega

theorem natDigitsRev_ne_nil {n : ℕ} (h : n ≠ 0) : natDigitsRev n ≠ [] := by
  cases n with
  | zero => exact absurd rfl h
  | succ m => rw [natDigitsRev_succ]; exact List.cons_ne_nil _ _

theorem charVal_digitChar {d : ℕ} (h : d < 10) : charVal (digitChar d) = d := by
  interval_cases d <;> rfl

theorem digitChar_isDigit {d : ℕ} (h : d < 10) : (digitChar d).isDigit = true := by
  interval_cases d <;> decide

theorem digitChar_not_ws {d : ℕ} (h : d < 10) : (digitChar d).isWhitespace = false := by
  interval_cases d <;> decide

theorem digitChar_toUpper {d : ℕ} (h : d < 10) : (digitChar d).toUpper = digitChar d := by
  interval_cases d <;> decide

theorem digitChar_ne {d : ℕ} (h : d < 10) (c : Char) (hc : c.isDigit = false) :
    digitChar d ≠ c := by
  intro he
  rw [← he, digitChar_isDigit h] at hc
  exact Bool.noConfusion hc

theorem natDigits_shape (n : ℕ) :
    ∃ l : List ℕ, (∀ d ∈ l, d < 10) ∧ natDigits n = l.map digitChar ∧ l ≠ [] := by
  by_cases h : n = 0
  · subst h
    exact ⟨[0], by intro d hd; simp at hd; omega, rfl, by simp⟩
  · refine ⟨(natDigitsRev n).reverse, ?_, ?_, ?_⟩
    · intro d hd; exact natDigitsRev_lt_ten n d (List.mem_reverse.mp hd)
    · rw [natDigits, if_neg h]
    · simpa using natDigitsRev_ne_nil h

theorem natDigits_all_digit (n : ℕ) :
    ∀ c ∈ natDigits n, ∃ d, d < 10 ∧ c = digitChar d := by
  obtain ⟨l, hl, he, -⟩ := natDigits_shape n
  rw [he]
  intro c hc
  obtain ⟨d, hd, rfl⟩ := List.mem_map.mp hc
  exact ⟨d, hl d hd, rfl⟩

theorem natDigits_ne_nil (n : ℕ) : natDigits n ≠ [] := by
  obtain ⟨l, -, he, hne⟩ := natDigits_shape n
  rw [he]
  simpa using hne

theorem digitsVal_append_singleton (l : List Char) (c : Char) :
    digitsVal (l ++ [c]) = 10 * digitsVal l + charVal c := by
  simp [digitsVal, List.foldl_append]

theorem digitsVal_reverse_map (l : List ℕ) (h : ∀ d ∈ l, d < 10) :
    digitsVal (l.reverse.map digitChar) = valLE l := by
  induction l with
  | nil => rfl
  | cons d l ih =>
    rw [List.reverse_cons, List.map_append, List.map_cons, List.map_nil,
      digitsVal_append_singleton, ih (fun x hx => h x (List.mem_cons_of_mem _ hx)),
      charVal_digitChar (h d (List.mem_cons_self _ _))]
    show 10 * valLE l + d = d + 10 * valLE l
    omega

theorem digitsVal_natDigits (n : ℕ) : digitsVal (natDigits n) = n := by
  by_cases h : n = 0
  · subst h; rfl
  · rw [natDigits, if_neg h, digitsVal_reverse_map _ (natDigitsRev_lt_ten n),
      valLE_natDigitsRev]

theorem pad3_all_digit (n : ℕ) : ∀ c ∈ pad3 n, ∃ d, d < 10 ∧ c = digitChar d := by
  intro c hc
  simp only [pad3, List.mem_cons, List.not_mem_nil, or_false] at hc
  rcases hc with rfl | rfl | rfl
  · exact ⟨n / 100 % 10, Nat.mod_lt _ (by norm_num), rfl⟩
  · exact ⟨n / 10 % 10, Nat.mod_lt _ (by norm_num), rfl⟩
  · exact ⟨n % 10, Nat.mod_lt _ (by norm_num), rfl⟩

theorem digitsVal_pad3 {n : ℕ} (h : n < 1000) : digitsVal (pad3 n) = n := by
  show 10 * (10 * (10 * 0 + charVal (digitChar (n / 100 % 10))) +
    charVal (digitChar (n / 10 % 10))) + charVal (digitChar (n % 10)) = n
  rw [charVal_digitChar (Nat.mod_lt _ (by norm_num)),
    charVal_digitChar (Nat.mod_lt _ (by norm_num)),
    charVal_digitChar (Nat.mod_lt _ (by norm_num))]
  omega

/-! ### Lemmas: list utilities for the string pipeline -/

theorem dropWhile_eq_self_of {p : Char → Bool} {l : List Char}
    (h : ∀ c ∈ l, p c = false) : l.dropWhile p = l := by
  cases l with
  | nil => rfl
  | cons c t => simp [List.dropWhile, h c (List.mem_cons_self _ _)]

theorem pyStrip_eq_self {l : List Char} (h : ∀ c ∈ l, c.isWhitespace = false) :
    pyStrip l = l := by
  unfold pyStrip
  rw [dropWhile_eq_self_of h,
    dropWhile_eq_self_of (fun c hc => h c (List.mem_reverse.mp hc)),
    List.reverse_reverse]

theorem map_toUpper_eq_self {l : List Char} (h : ∀ c ∈ l, c.toUpper = c) :
    l.map Char.toUpper = l := by
  induction l with
  | nil => rfl
  | cons c t ih =>
    rw [List.map_cons, h c (List.mem_cons_self _ _),
      ih (fun x hx => h x (List.mem_cons_of_mem _ hx))]

theorem filter_eq_self_of {p : Char → Bool} {l : List Char}
    (h : ∀ c ∈ l, p c = true) : l.filter p = l := List.filter_eq_self.mpr h

theorem contains_eq_true_of_mem {l : List Char} {c : Char} (h : c ∈ l) :
    l.contains c = true := List.elem_eq_true_of_mem h

theorem contains_eq_false_of_not_mem {l : List Char} {c : Char} (h : c ∉ l) :
    l.contains c = false := by
  rcases h' : l.contains c with _ | _
  · rfl
  · exact absurd (List.mem_of_elem_eq_true h') h

theorem splitOnChar_not_mem {c : Char} :
    ∀ {A : List Char}, c ∉ A → splitOnChar c A = [A] := by
  intro A
  induction A with
  | nil => intro _; rfl
  | cons x xs ih =>
    intro h
    have hx : ¬(x = c) := fun he => h (List.mem_cons.mpr (Or.inl he.symm))
    rw [splitOnChar, if_neg hx, ih (fun hm => h (List.mem_cons_of_mem _ hm))]

theorem splitOnChar_append {c : Char} :
    ∀ {A : List Char} (B : List Char), c ∉ A →
      splitOnChar c (A ++ c :: B) = A :: splitOnChar c B := by
  intro A
  induction A with
  | nil =>
    intro B _
    show splitOnChar c (c :: B) = [] :: splitOnChar c B
    rw [splitOnChar, if_pos rfl]
  | cons x xs ih =>
    intro B h
    have hx : ¬(x = c) := fun he => h (List.mem_cons.mpr (Or.inl he.symm))
    show splitOnChar c (x :: (xs ++ c :: B)) = (x :: xs) :: splitOnChar c B
    rw [splitOnChar, if_neg hx, ih B (fun hm => h (List.mem_cons_of_mem _ hm))]

theorem takeWhile_dropWhile_append {p : Char → Bool} :
    ∀ {A : List Char} {b : Char} (B : List Char), (∀ a ∈ A, p a = true) → p b = false →
      (A ++ b :: B).takeWhile p = A ∧ (A ++ b :: B).dropWhile p = b :: B := by
  intro A
  induction A with
  | nil =>
    intro b B _ hb
    constructor
    · show List.takeWhile p (b :: B) = []
      simp [List.takeWhile, hb]
    · show List.dropWhile p (b :: B) = b :: B
      simp [List.dropWhile, hb]
  | cons x xs ih =>
    intro b B hA hb
    have hx := hA x (List.mem_cons_self _ _)
    obtain ⟨h1, h2⟩ := ih B (fun a ha => hA a (List.mem_cons_of_mem _ ha)) hb
    constructor
    · show List.takeWhile p (x :: (xs ++ b :: B)) = x :: xs
      simp [List.takeWhile, hx, h1]
    · show List.dropWhile p (x :: (xs ++ b :: B)) = b :: B
      simp [List.dropWhile, hx, h2]

/-! ### Lemmas: behaviour of `parse_mileage` on formatted chainage strings -/

theorem digitList_facts {l : List Char} (h : ∀ c ∈ l, ∃ d, d < 10 ∧ c = digitChar d) :
    (∀ c ∈ l, c.isWhitespace = false) ∧ (∀ c ∈ l, c.toUpper = c) ∧
    (∀ c ∈ l, c.isDigit = true) ∧ 'K' ∉ l ∧ '+' ∉ l ∧ '.' ∉ l := by
  refine ⟨?_, ?_, ?_, ?_, ?_, ?_⟩
  · intro c hc; obtain ⟨d, hd, rfl⟩ := h c hc; exact digitChar_not_ws hd
  · intro c hc; obtain ⟨d, hd, rfl⟩ := h c hc; exact digitChar_toUpper hd
  · intro c hc; obtain ⟨d, hd, rfl⟩ := h c hc; exact digitChar_isDigit hd
  · intro hm; obtain ⟨d, hd, he⟩ := h _ hm; exact digitChar_ne hd 'K' (by decide) he.symm
  · intro hm; obtain ⟨d, hd, he⟩ := h _ hm; exact digitChar_ne hd '+' (by decide) he.symm
  · intro hm; obtain ⟨d, hd, he⟩ := h _ hm; exact digitChar_ne hd '.' (by decide) he.symm

theorem pyInt_cons (c : Char) (t : List Char) :
    pyInt (c :: t) =
      if c = '-' then
        if t ≠ [] ∧ t.all Char.isDigit then some (-(digitsVal t : ℤ)) else none
      else
        if (c :: t).all Char.isDigit then some ((digitsVal (c :: t) : ℤ)) else none := rfl

theorem pyFloat_cons (c : Char) (t : List Char) :
    pyFloat (c :: t) =
      if c = '-' then (pyFloatCore t).map (fun q => -q)
      else if c = '+' then pyFloatCore t
      else pyFloatCore (c :: t) := rfl

theorem filter_digits_minus (n : ℕ) :
    (natDigits n).filter (fun c => c.isDigit || c = '-') = natDigits n := by
  refine filter_eq_self_of (fun c hc => ?_)
  obtain ⟨d, hd, rfl⟩ := natDigits_all_digit n c hc
  simp [digitChar_isDigit hd]

theorem pyInt_natDigits (n : ℕ) : pyInt (natDigits n) = some (n : ℤ) := by
  obtain ⟨-, -, hdig, -, -, -⟩ := digitList_facts (natDigits_all_digit n)
  cases hA : natDigits n with
  | nil => exact absurd hA (natDigits_ne_nil n)
  | cons c t =>
    have hcdig : c.isDigit = true := hdig c (hA ▸ List.mem_cons_self c t)
    have hcne : ¬(c = '-') := by
      intro he
      rw [he] at hcdig
      exact Bool.noConfusion ((by decide : ('-' : Char).isDigit = false).symm.trans hcdig)
    rw [pyInt_cons, if_neg hcne, if_pos]
    · rw [← hA, digitsVal_natDigits]
    · rw [← hA]
      exact List.all_eq_true.mpr hdig

theorem pyInt_neg_natDigits (n : ℕ) : pyInt ('-' :: natDigits n) = some (-(n : ℤ)) := by
  obtain ⟨-, -, hdig, -, -, -⟩ := digitList_facts (natDigits_all_digit n)
  rw [pyInt_cons, if_pos rfl, if_pos]
  · rw [digitsVal_natDigits]
  · exact ⟨natDigits_ne_nil n, List.all_eq_true.mpr hdig⟩

theorem pyFloat_shape (ip fr : ℕ) (hfr : fr < 1000) :
    pyFloat (natDigits ip ++ '.' :: pad3 fr) = some ((ip : ℚ) + (fr : ℚ) / 1000) := by
  obtain ⟨-, -, hBdig, -, -, hBdot⟩ := digitList_facts (natDigits_all_digit ip)
  obtain ⟨-, -, hPdig, -, -, hPdot⟩ := digitList_facts (pad3_all_digit fr)
  have hcore : pyFloatCore (natDigits ip ++ '.' :: pad3 fr) =
      some ((ip : ℚ) + (fr : ℚ) / 1000) := by
    have hcont : (natDigits ip ++ '.' :: pad3 fr).contains '.' = true :=
      contains_eq_true_of_mem (by simp)
    obtain ⟨htake, hdrop⟩ := takeWhile_dropWhile_append (p := fun c => c ≠ '.')
      (A := natDigits ip) (b := '.') (pad3 fr)
      (fun a ha => decide_eq_true (fun (he : a = '.') => hBdot (he ▸ ha)))
      (by decide)
    unfold pyFloatCore
    rw [hcont, if_pos rfl, hdrop, List.tail_cons, contains_eq_false_of_not_mem hPdot,
      if_neg (by simp), htake,
      if_pos ⟨Or.inl (natDigits_ne_nil ip), List.all_eq_true.mpr hBdig,
        List.all_eq_true.mpr hPdig⟩,
      digitsVal_natDigits, digitsVal_pad3 hfr]
    norm_num [pad3]
  cases hB : natDigits ip with
  | nil => exact absurd hB (natDigits_ne_nil ip)
  | cons c t =>
    have hcdig : c.isDigit = true := hBdig c (hB ▸ List.mem_cons_self c t)
    have hcne1 : ¬(c = '-') := by
      intro he
      rw [he] at hcdig
      exact Bool.noConfusion ((by decide : ('-' : Char).isDigit = false).symm.trans hcdig)
    have hcne2 : ¬(c = '+') := by
      intro he
      rw [he] at hcdig
      exact Bool.noConfusion ((by decide : ('+' : Char).isDigit = false).symm.trans hcdig)
    rw [List.cons_append, pyFloat_cons, if_neg hcne1, if_neg hcne2, ← List.cons_append,
      ← hB, hcore]

theorem parse_mileage_shape_aux (sgn : List Char) (km ip fr : ℕ) (k : ℤ) (hfr : fr < 1000)
    (hws : ∀ c ∈ sgn, c.isWhitespace = false)
    (hup : ∀ c ∈ sgn, c.toUpper = c)
    (hK : 'K' ∉ sgn)
    (hplus : '+' ∉ sgn)
    (hint : pyInt ((sgn ++ natDigits km).filter (fun c => c.isDigit || c = '-')) = some k) :
    parse_mileage (String.mk (sgn ++ 'K' :: (natDigits km ++ '+' ::
      (natDigits ip ++ '.' :: pad3 fr)))) =
    (k : ℚ) * 1000 + ((ip : ℚ) + (fr : ℚ) / 1000) := by
  obtain ⟨hAws, hAup, hAdig, hAK, hAplus, hAdot⟩ := digitList_facts (natDigits_all_digit km)
  obtain ⟨hBws, hBup, hBdig, hBK, hBplus, hBdot⟩ := digitList_facts (natDigits_all_digit ip)
  obtain ⟨hPws, hPup, hPdig, hPK, hPplus, hPdot⟩ := digitList_facts (pad3_all_digit fr)
  set L : List Char := sgn ++ 'K' :: (natDigits km ++ '+' ::
    (natDigits ip ++ '.' :: pad3 fr)) with hL
  have hLws : ∀ c ∈ L, c.isWhitespace = false := by
    rw [hL]
    exact List.forall_mem_append.mpr ⟨hws, List.forall_mem_cons.mpr ⟨by decide,
      List.forall_mem_append.mpr ⟨hAws, List.forall_mem_cons.mpr ⟨by decide,
        List.forall_mem_append.mpr ⟨hBws, List.forall_mem_cons.mpr ⟨by decide, hPws⟩⟩⟩⟩⟩⟩
  have hLup : ∀ c ∈ L, c.toUpper = c := by
    rw [hL]
    exact List.forall_mem_append.mpr ⟨hup, List.forall_mem_cons.mpr ⟨by decide,
      List.forall_mem_append.mpr ⟨hAup, List.forall_mem_cons.mpr ⟨by decide,
        List.forall_mem_append.mpr ⟨hBup, List.forall_mem_cons.mpr ⟨by decide, hPup⟩⟩⟩⟩⟩⟩
  have e1 : sgn.filter (fun c => c ≠ 'K') = sgn := by
    rw [List.filter_eq_self]
    intro c hc
    simpa using fun (he : c = 'K') => hK (he ▸ hc)
  have e2 : (natDigits km ++ '+' :: (natDigits ip ++ '.' :: pad3 fr)).filter
      (fun c => c ≠ 'K') = natDigits km ++ '+' :: (natDigits ip ++ '.' :: pad3 fr) := by
    rw [List.filter_eq_self]
    intro c hc
    simp only [List.mem_append, List.mem_cons] at hc
    have hne : ¬(c = 'K') := by
      rcases hc with h | h | h | h | h
      · exact fun he => hAK (he ▸ h)
      · subst h; decide
      · exact fun he => hBK (he ▸ h)
      · subst h; decide
      · exact fun he => hPK (he ▸ h)
    simpa using hne
  have hfilter : L.filter (fun c => c ≠ 'K') =
      (sgn ++ natDigits km) ++ '+' :: (natDigits ip ++ '.' :: pad3 fr) := by
    rw [hL, List.filter_append, List.filter_cons, if_neg (by decide), e1, e2,
      List.append_assoc]
  have hplusA : '+' ∉ sgn ++ natDigits km := by
    intro hm
    rcases List.mem_append.mp hm with h | h
    · exact hplus h
    · exact hAplus h
  have hplusB : '+' ∉ natDigits ip ++ '.' :: pad3 fr := by
    intro hm
    rcases List.mem_append.mp hm with h | h
    · exact hBplus h
    · rcases List.mem_cons.mp h with h' | h'
      · exact absurd h' (by decide)
      · exact hPplus h'
  have hcontains : ((sgn ++ natDigits km) ++ '+' ::
      (natDigits ip ++ '.' :: pad3 fr)).contains '+' = true :=
    contains_eq_true_of_mem (by simp)
  have hsplit : splitOnChar '+' ((sgn ++ natDigits km) ++ '+' ::
      (natDigits ip ++ '.' :: pad3 fr)) =
      [sgn ++ natDigits km, natDigits ip ++ '.' :: pad3 fr] := by
    rw [splitOnChar_append _ hplusA, splitOnChar_not_mem hplusB]
  have htoList : (String.mk L).toList = L := rfl
  simp only [parse_mileage, htoList, pyStrip_eq_self hLws, map_toUpper_eq_self hLup,
    hfilter, hcontains, if_pos rfl, hsplit]
  simp only [if_true, List.headD, List.drop, hint, pyFloat_shape ip fr hfr]

theorem parse_mileage_shape (neg : Bool) (km ip fr : ℕ) (hfr : fr < 1000) :
    parse_mileage (String.mk ((if neg then ['-'] else []) ++ 'K' :: (natDigits km ++
      '+' :: (natDigits ip ++ '.' :: pad3 fr)))) =
    (if neg then -(km : ℚ) else (km : ℚ)) * 1000 + ((ip : ℚ) + (fr : ℚ) / 1000) := by
  obtain ⟨-, -, hAdig, -, -, -⟩ := digitList_facts (natDigits_all_digit km)
  cases neg with
  | false =>
    rw [if_neg (by simp), if_neg (by simp)]
    have hint : pyInt (([] ++ natDigits km).filter (fun c => c.isDigit || c = '-')) =
        some (km : ℤ) := by
      rw [List.nil_append, filter_digits_minus, pyInt_natDigits]
    simpa using parse_mileage_shape_aux [] km ip fr (km : ℤ) hfr
      (by intro c hc; cases hc) (by intro c hc; cases hc)
      (by intro hm; cases hm) (by intro hm; cases hm) hint
  | true =>
    rw [if_pos rfl, if_pos rfl]
    have hint : pyInt ((['-'] ++ natDigits km).filter (fun c => c.isDigit || c = '-')) =
        some (-(km : ℤ)) := by
      rw [List.cons_append, List.nil_append, List.filter_cons, if_pos (by decide),
        filter_digits_minus, pyInt_neg_natDigits]
    have := parse_mileage_shape_aux ['-'] km ip fr (-(km : ℤ)) hfr
      (by intro c hc; rw [List.mem_singleton] at hc; subst hc; decide)
      (by intro c hc; rw [List.mem_singleton] at hc; subst hc; decide)
      (by intro hm; rw [List.mem_singleton] at hm; exact absurd hm (by decide))
      (by intro hm; rw [List.mem_singleton] at hm; exact absurd hm (by decide)) hint
    rw [this]
    push_cast
    ring

/-! ### Lemmas: the computable `Rat.floor` / `Rat.ceil` agree with `⌊⌋` / `⌈⌉` -/

theorem ratFloor_eq (q : ℚ) : q.floor = ⌊q⌋ := by
  rw [Rat.floor_def', Rat.floor_def]

theorem ratCeil_eq (q : ℚ) : q.ceil = ⌈q⌉ := by
  show Rat.ceil q = ⌈q⌉
  unfold Rat.ceil
  by_cases hd : q.den = 1
  · rw [if_pos hd]
    conv_rhs => rw [← Rat.coe_int_num_of_den_eq_one hd]
    rw [Int.ceil_intCast]
  · rw [if_neg hd]
    have hfl : (q.num / (q.den : ℤ)) = ⌊q⌋ := Rat.floor_def.symm
    rw [hfl]
    have h1 : ((⌊q⌋ : ℚ)) ≠ q := by
      intro he
      exact hd (by rw [← he]; exact Rat.den_intCast ⌊q⌋)
    have h2 : ((⌊q⌋ : ℚ)) < q := lt_of_le_of_ne (Int.floor_le q) h1
    symm
    rw [Int.ceil_eq_iff]
    constructor
    · push_cast
      linarith
    · exact_mod_cast (Int.lt_floor_add_one q).le

theorem ratRound_intCast (z : ℤ) : ratRound ((z : ℚ)) = z := by
  unfold ratRound
  rw [ratFloor_eq, Int.floor_int_add]
  norm_num

/-! ### Lemmas: decomposition of `format_mileage` at three-decimal inputs -/

theorem format_mileage_eq_formatNoPad (z : ℤ) :
    format_mileage ((z : ℚ) / 1000) = formatNoPad z := by
  have h1000 : (0 : ℚ) < 1000 := by norm_num
  have habs : |(z : ℚ) / 1000| = ((z.natAbs : ℕ) : ℚ) / 1000 := by
    rw [abs_div, abs_of_pos h1000, Int.cast_natAbs, Int.cast_abs]
  set n := z.natAbs with hn
  have hfloor : ((((n : ℚ) / 1000) / 1000).floor).toNat = n / 1000000 := by
    rw [ratFloor_eq, div_div]
    norm_num
    rw [show ((1000000 : ℚ)) = ((1000000 : ℕ) : ℚ) by norm_num,
      Rat.floor_natCast_div_natCast, ← Int.natCast_div]
    exact Int.toNat_ofNat _
  have hmRem : ((n : ℚ) / 1000 - 1000 * (((n / 1000000 : ℕ)) : ℚ)) * 1000 =
      ((n % 1000000 : ℕ) : ℚ) := by
    have hdm : ((n % 1000000 : ℕ) : ℚ) = (n : ℚ) - 1000000 * (((n / 1000000 : ℕ)) : ℚ) := by
      have h := congrArg (fun m : ℕ => ((m : ℚ))) (Nat.div_add_mod n 1000000)
      push_cast at h
      linarith
    rw [hdm]
    ring
  have hround : (ratRound (((n % 1000000 : ℕ) : ℚ))).toNat = n % 1000000 := by
    rw [show (((n % 1000000 : ℕ)) : ℚ) = (((n % 1000000 : ℕ) : ℤ) : ℚ) by
        rw [Int.cast_natCast],
      ratRound_intCast]
    exact Int.toNat_ofNat _
  have hmod : n % 1000000 % 1000 = n % 1000 :=
    Nat.mod_mod_of_dvd n (by norm_num : (1000 : ℕ) ∣ 1000000)
  by_cases hz : z < 0
  · have hz' : (z : ℚ) / 1000 < 0 :=
      div_neg_of_neg_of_pos (by exact_mod_cast hz) h1000
    simp only [format_mileage, formatNoPad, if_pos hz, if_pos hz', habs, hfloor,
      hmRem, hround, hmod]
  · have hz' : ¬((z : ℚ) / 1000 < 0) :=
      not_lt.mpr (div_nonneg (by exact_mod_cast not_lt.mp hz) h1000.le)
    simp only [format_mileage, formatNoPad, if_neg hz, if_neg hz', habs, hfloor,
      hmRem, hround, hmod]

/-! ### Claim C2: chainage round-trip -/

/-- Claim C2, amended: for every non-negative meter value (exact at three
decimals, the precision `format_chainage` emits), parsing the formatted
string returns the value again, and the claim's concrete examples hold
(`parse_chainage("K0+245.102") = 245.102`,
`format_chainage(1408.0) = "K1+408.000"`).  The original claim's extension
to negative meter values fails (see the counterexample): the parser
re-applies the minus sign to the kilometer component only. -/
theorem C2_chainage_roundtrip_nonneg :
    (∀ n : ℕ, parse_mileage (format_mileage ((n : ℚ) / 1000)) = (n : ℚ) / 1000) ∧
    parse_mileage "K0+245.102" = 245.102 ∧
    format_mileage 1408 = "K1+408.000" := by
  refine ⟨?_, ?_, ?_⟩
  · intro n
    have hf := format_mileage_eq_formatNoPad (n : ℤ)
    rw [show (((n : ℤ)) : ℚ) = (n : ℚ) by push_cast; ring] at hf
    rw [hf]
    unfold formatNoPad
    rw [if_neg (not_lt.mpr (Int.natCast_nonneg n)), Int.natAbs_ofNat]
    have hp := parse_mileage_shape false (n / 1000000) (n % 1000000 / 1000) (n % 1000)
      (Nat.mod_lt n (by norm_num))
    simp only [Bool.false_eq_true, if_false] at hp
    rw [hp]
    have h0 : n = 1000000 * (n / 1000000) + 1000 * (n % 1000000 / 1000) + n % 1000 := by
      omega
    have hsum : (n : ℚ) = 1000000 * ((n / 1000000 : ℕ) : ℚ) +
        1000 * ((n % 1000000 / 1000 : ℕ) : ℚ) + ((n % 1000 : ℕ) : ℚ) := by
      calc (n : ℚ)
          = ((1000000 * (n / 1000000) + 1000 * (n % 1000000 / 1000) + n % 1000 : ℕ) : ℚ) := by
            rw [← h0]
        _ = _ := by push_cast; ring
    rw [hsum]
    field_simp
    ring
  · have hs : ("K0+245.102" : String) = String.mk ((if false then ['-'] else []) ++
        'K' :: (natDigits 0 ++ '+' :: (natDigits 245 ++ '.' :: pad3 102))) := by decide
    rw [hs, parse_mileage_shape false 0 245 102 (by norm_num)]
    norm_num
  · rw [show (1408 : ℚ) = ((1408000 : ℤ) : ℚ) / 1000 by norm_num,
      format_mileage_eq_formatNoPad]
    decide

/-- Claim C2, counterexample: the round trip fails for negative meter
values: `format_chainage(-500.0) = "-K0+500.000"`, but the parser applies
the recovered minus sign only to the kilometer component (here `-0`), so
`parse_chainage(format_chainage(-500.0)) = 500 ≠ -500`. -/
theorem C2_counterexample_negative :
    parse_mileage (format_mileage (-500)) = 500 ∧ ((500 : ℚ)) ≠ (-500 : ℚ) := by
  constructor
  · rw [show ((-500 : ℚ)) = ((-500000 : ℤ) : ℚ) / 1000 by norm_num,
      format_mileage_eq_formatNoPad]
    have hs : formatNoPad (-500000) = String.mk ((if true then ['-'] else []) ++
        'K' :: (natDigits 0 ++ '+' :: (natDigits 500 ++ '.' :: pad3 0))) := by decide
    rw [hs, parse_mileage_shape true 0 500 0 (by norm_num)]
    norm_num
  · norm_num

/-! ### Claim C9: rendering of `format_chainage` -/

/-- Claim C9, amended: `format_mileage` renders
`"{sign}K{km}+{m:.3f}"` with `km = floor(|meters| / 1000)` and
`m = |meters| mod 1000` at three decimals, a leading `-` exactly when the
input is negative — but with NO zero-padding of the meters component's
integer digits (the source uses `{m:.3f}`, not `{m:07.3f}`): `45.0`
renders as `"K0+45.000"`, not `"K0+045.000"`.  `formatNoPad` is that
closed-form rendering, stated over thousandths `z`. -/
theorem C9_format_mileage_rendering :
    (∀ z : ℤ, format_mileage ((z : ℚ) / 1000) = formatNoPad z) ∧
    format_mileage 245.102 = "K0+245.102" ∧
    format_mileage 1408 = "K1+408.000" ∧
    format_mileage 45 = "K0+45.000" ∧
    format_mileage (-45) = "-K0+45.000" := by
  refine ⟨format_mileage_eq_formatNoPad, ?_, ?_, ?_, ?_⟩
  · rw [show ((245.102 : ℚ)) = ((245102 : ℤ) : ℚ) / 1000 by norm_num,
      format_mileage_eq_formatNoPad]
    decide
  · rw [show ((1408 : ℚ)) = ((1408000 : ℤ) : ℚ) / 1000 by norm_num,
      format_mileage_eq_formatNoPad]
    decide
  · rw [show ((45 : ℚ)) = ((45000 : ℤ) : ℚ) / 1000 by norm_num,
      format_mileage_eq_formatNoPad]
    decide
  · rw [show ((-45 : ℚ)) = ((-45000 : ℤ) : ℚ) / 1000 by norm_num,
      format_mileage_eq_formatNoPad]
    decide

/-- Claim C9, counterexample: the source formatter does not zero-pad the
meters component to three integer digits: `format_mileage 45` yields
`"K0+45.000"`, which differs from the claimed `"{m:07.3f}"` rendering
`"K0+045.000"` (produced by the spec-modelled `format_chainage_spec`). -/
theorem C9_counterexample_no_zero_padding :
    format_mileage 45 = "K0+45.000" ∧ format_chainage_spec 45000 = "K0+045.000" ∧
    format_mileage 45 ≠ format_chainage_spec 45000 := by
  have h : format_mileage 45 = formatNoPad 45000 := by
    rw [show ((45 : ℚ)) = ((45000 : ℤ) : ℚ) / 1000 by norm_num,
      format_mileage_eq_formatNoPad]
  refine ⟨?_, by decide, ?_⟩
  · rw [h]; decide
  · rw [h]; decide

/-! ### Lemmas: execution of the calculator's `_add_batch` fold -/

theorem applyAdds_all_batches (tname tid : String) :
    ∀ (specs : List AddSpec) (res : CalcResults),
      (applyAdds tname tid res specs).all_batches =
        res.all_batches ++ specs.map (mkBatch tname tid) := by
  intro specs
  induction specs with
  | nil => intro res; simp [applyAdds]
  | cons a l ih =>
    intro res
    show (applyAdds tname tid (addBatch tname tid res a) l).all_batches = _
    rw [ih]
    simp [addBatch]

theorem applyAdds_divisions (tname tid : String) (d i : String) :
    ∀ (specs : List AddSpec) (res : CalcResults),
      (applyAdds tname tid res specs).divisions d i =
        res.divisions d i ++
          (specs.filter (fun a => a.d = d ∧ a.i = i)).map (mkBatch tname tid) := by
  intro specs
  induction specs with
  | nil => intro res; simp [applyAdds]
  | cons a l ih =>
    intro res
    show (applyAdds tname tid (addBatch tname tid res a) l).divisions d i = _
    rw [ih]
    by_cases h : d = a.d ∧ i = a.i
    · obtain ⟨h1, h2⟩ := h
      subst h1
      subst h2
      simp [addBatch, List.filter_cons]
    · have h' : ¬(a.d = d ∧ a.i = i) := fun hc => h ⟨hc.1.symm, hc.2.symm⟩
      rw [List.filter_cons, if_neg (by simpa using h')]
      simp [addBatch, if_neg h]

theorem calc_all_batches (t : Tunnel) :
    (calculate_single_tunnel t).all_batches = (tunnelAdds t).map (mkBatch t.name t.id) := by
  unfold calculate_single_tunnel
  rw [applyAdds_all_batches]
  rfl

theorem calc_divisions (t : Tunnel) (d i : String) :
    (calculate_single_tunnel t).divisions d i =
      ((tunnelAdds t).filter (fun a => a.d = d ∧ a.i = i)).map (mkBatch t.name t.id) := by
  unfold calculate_single_tunnel
  rw [applyAdds_divisions]
  rfl

theorem countDI_calc (t : Tunnel) (d i : String) :
    countDI (calculate_single_tunnel t) d i =
      ((tunnelAdds t).filter (fun a => a.d = d ∧ a.i = i)).length := by
  unfold countDI
  rw [calc_all_batches, List.filter_map, List.length_map]
  exact congrArg List.length (List.filter_congr (fun a _ => rfl))

theorem countDivName_calc (t : Tunnel) (nm : String) :
    countDivName (calculate_single_tunnel t) nm =
      ((tunnelAdds t).filter (fun a => divName a.d = nm)).length := by
  unfold countDivName
  rw [calc_all_batches, List.filter_map, List.length_map]
  exact congrArg List.length (List.filter_congr (fun a _ => rfl))

/-! ### Lemmas: the `DIVISIONS` key structure and counting partitions -/

theorem validKeys_eq : validKeys =
    [("01", "01"), ("02", "01"), ("02", "02"), ("02", "03"), ("02", "04"), ("03", "01"),
     ("03", "02"), ("03", "03"), ("04", "01"), ("04", "02"), ("05", "01"), ("05", "02"),
     ("05", "03"), ("05", "04"), ("06", "01"), ("06", "02"), ("07", "01"), ("07", "02"),
     ("07", "03"), ("08", "01"), ("08", "02"), ("08", "03"), ("08", "04")] := by decide

theorem divisionCodes_eq : divisionCodes =
    ["01", "02", "03", "04", "05", "06", "07", "08"] := by decide

theorem key_div_indicator (k : String × String) (hk : k ∈ validKeys) (d : String)
    (hd : d ∈ divisionCodes) :
    ((divItems d).map (fun it => if k.1 = d ∧ k.2 = it.1 then 1 else 0)).sum
      = (if divName k.1 = divName d then 1 else 0) := by
  rw [validKeys_eq] at hk
  rw [divisionCodes_eq] at hd
  fin_cases hk <;> fin_cases hd <;> decide

theorem key_indicator (k : String × String) (hk : k ∈ validKeys) :
    (DIVISIONS.map (fun e =>
      ((divItems e.1).map (fun it => if k.1 = e.1 ∧ k.2 = it.1 then 1 else 0)).sum)).sum
      = 1 := by
  rw [validKeys_eq] at hk
  fin_cases hk <;> decide

theorem sum_map_add {α : Type} (l : List α) (f g : α → ℕ) :
    (l.map (fun x => f x + g x)).sum = (l.map f).sum + (l.map g).sum := by
  induction l with
  | nil => rfl
  | cons a t ih =>
    simp only [List.map_cons, List.sum_cons, ih]
    omega

theorem length_filter_cons {α : Type} (p : α → Bool) (a : α) (l : List α) :
    ((a :: l).filter p).length = (if p a = true then 1 else 0) + (l.filter p).length := by
  rw [List.filter_cons]
  by_cases h : p a = true
  · rw [if_pos h, if_pos h, List.length_cons]
    omega
  · rw [if_neg h, if_neg h]
    omega

theorem sum_items_filter (d : String) (hd : d ∈ divisionCodes) :
    ∀ (specs : List AddSpec), (∀ a ∈ specs, (a.d, a.i) ∈ validKeys) →
    ((divItems d).map (fun it =>
        (specs.filter (fun a => a.d = d ∧ a.i = it.1)).length)).sum
      = (specs.filter (fun a => divName a.d = divName d)).length := by
  intro specs
  induction specs with
  | nil => intro _; simp
  | cons a l ih =>
    intro hv
    have hk : ((a.d, a.i) : String × String) ∈ validKeys := hv a (List.mem_cons_self _ _)
    have hrest := ih (fun x hx => hv x (List.mem_cons_of_mem _ hx))
    have hkey : ((divItems d).map (fun it => if a.d = d ∧ a.i = it.1 then 1 else 0)).sum
        = (if divName a.d = divName d then 1 else 0) :=
      key_div_indicator (a.d, a.i) hk d hd
    have hstep : ∀ it : String × String × String × String × String,
        ((a :: l).filter (fun x => x.d = d ∧ x.i = it.1)).length =
          (if a.d = d ∧ a.i = it.1 then 1 else 0) +
            (l.filter (fun x => x.d = d ∧ x.i = it.1)).length := by
      intro it
      rw [length_filter_cons]
      congr 1
      simp only [decide_eq_true_eq]
    calc ((divItems d).map (fun it =>
            ((a :: l).filter (fun x => x.d = d ∧ x.i = it.1)).length)).sum
        = ((divItems d).map (fun it => (if a.d = d ∧ a.i = it.1 then 1 else 0) +
            (l.filter (fun x => x.d = d ∧ x.i = it.1)).length)).sum := by
          exact congrArg List.sum (List.map_congr_left (fun it _ => hstep it))
      _ = ((divItems d).map (fun it => if a.d = d ∧ a.i = it.1 then 1 else 0)).sum +
            ((divItems d).map (fun it =>
              (l.filter (fun x => x.d = d ∧ x.i = it.1)).length)).sum :=
          sum_map_add _ _ _
      _ = (if divName a.d = divName d then 1 else 0) +
            (l.filter (fun x => divName x.d = divName d)).length := by
          rw [hkey, hrest]
      _ = ((a :: l).filter (fun x => divName x.d = divName d)).length := by
          rw [length_filter_cons]
          congr 1
          simp only [decide_eq_true_eq]

theorem sum_divisions_filter :
    ∀ (specs : List AddSpec), (∀ a ∈ specs, (a.d, a.i) ∈ validKeys) →
    (DIVISIONS.map (fun e => ((divItems e.1).map (fun it =>
        (specs.filter (fun a => a.d = e.1 ∧ a.i = it.1)).length)).sum)).sum
      = specs.length := by
  intro specs
  induction specs with
  | nil => intro _; simp
  | cons a l ih =>
    intro hv
    have hk : ((a.d, a.i) : String × String) ∈ validKeys := hv a (List.mem_cons_self _ _)
    have hrest := ih (fun x hx => hv x (List.mem_cons_of_mem _ hx))
    have hkey : (DIVISIONS.map (fun e =>
        ((divItems e.1).map (fun it => if a.d = e.1 ∧ a.i = it.1 then 1 else 0)).sum)).sum
        = 1 := key_indicator (a.d, a.i) hk
    calc (DIVISIONS.map (fun e => ((divItems e.1).map (fun it =>
            ((a :: l).filter (fun x => x.d = e.1 ∧ x.i = it.1)).length)).sum)).sum
        = (DIVISIONS.map (fun e =>
            ((divItems e.1).map (fun it => if a.d = e.1 ∧ a.i = it.1 then 1 else 0)).sum +
            ((divItems e.1).map (fun it =>
              (l.filter (fun x => x.d = e.1 ∧ x.i = it.1)).length)).sum)).sum := by
          refine congrArg List.sum (List.map_congr_left (fun e _ => ?_))
          rw [← sum_map_add]
          refine congrArg List.sum (List.map_congr_left (fun it _ => ?_))
          rw [length_filter_cons]
          congr 1
          simp only [decide_eq_true_eq]
      _ = (DIVISIONS.map (fun e =>
            ((divItems e.1).map (fun it => if a.d = e.1 ∧ a.i = it.1 then 1 else 0)).sum)).sum +
          (DIVISIONS.map (fun e => ((divItems e.1).map (fun it =>
            (l.filter (fun x => x.d = e.1 ∧ x.i = it.1)).length)).sum)).sum :=
          sum_map_add _ _ _
      _ = 1 + l.length := by rw [hkey, hrest]
      _ = (a :: l).length := by rw [List.length_cons]; omega

/-! ### Lemmas: which division codes each generation phase emits -/

theorem portalAdds_mem :
    ∀ a ∈ portalAdds, ((a.d, a.i) ∈ validKeys ∧ (a.d = "02" ∨ a.d = "03")) := by decide

theorem cycleAdds_mem (dsign : ℚ) (seg : TunnelSegment) (c : ℕ) :
    ∀ a ∈ cycleAdds dsign seg c,
      ((a.d, a.i) ∈ validKeys ∧ (a.d = "04" ∨ a.d = "05")) := by
  intro a ha
  unfold cycleAdds at ha
  rw [List.mem_flatMap] at ha
  obtain ⟨e, he, ha⟩ := ha
  rcases List.mem_cons.mp ha with rfl | ha
  · refine ⟨?_, Or.inl rfl⟩
    show (("04", segExcItem seg) : String × String) ∈ validKeys
    unfold segExcItem
    by_cases h : seg.method = "CD法"
    · rw [if_pos h]; decide
    · rw [if_neg h]; decide
  · rw [List.mem_map] at ha
    obtain ⟨ic, hic, rfl⟩ := ha
    refine ⟨?_, Or.inr rfl⟩
    fin_cases hic <;>
      first
      | exact (show (("05", "01") : String × String) ∈ validKeys by decide)
      | exact (show (("05", "02") : String × String) ∈ validKeys by decide)
      | exact (show (("05", "03") : String × String) ∈ validKeys by decide)
      | exact (show (("05", "04") : String × String) ∈ validKeys by decide)

theorem segmentAdds_mem (dsign : ℚ) (seg : TunnelSegment) :
    ∀ a ∈ segmentAdds dsign seg,
      ((a.d, a.i) ∈ validKeys ∧ (a.d = "04" ∨ a.d = "05")) := by
  intro a ha
  unfold segmentAdds at ha
  split at ha
  · rw [List.mem_flatMap] at ha
    obtain ⟨c, -, ha⟩ := ha
    exact cycleAdds_mem dsign seg c a ha
  · cases ha

theorem ringAdds_mem (t : Tunnel) (r : ℕ) :
    ∀ a ∈ ringAdds t r,
      ((a.d, a.i) ∈ validKeys ∧ (a.d = "06" ∨ a.d = "07" ∨ a.d = "08")) := by
  intro a ha
  unfold ringAdds at ha
  rw [List.mem_append] at ha
  rcases ha with ha | ha
  · rw [List.mem_append] at ha
    rcases ha with ha | ha
    · rw [List.mem_flatMap] at ha
      obtain ⟨e, he, ha⟩ := ha
      rcases List.mem_cons.mp ha with rfl | ha
      · exact ⟨show (("06", "01") : String × String) ∈ validKeys by decide, Or.inl rfl⟩
      · rcases List.mem_cons.mp ha with rfl | ha
        · exact ⟨show (("06", "02") : String × String) ∈ validKeys by decide, Or.inl rfl⟩
        · cases ha
    · rw [List.mem_map] at ha
      obtain ⟨ic, hic, rfl⟩ := ha
      refine ⟨?_, Or.inr (Or.inl rfl)⟩
      fin_cases hic <;>
        first
        | exact (show (("07", "01") : String × String) ∈ validKeys by decide)
        | exact (show (("07", "02") : String × String) ∈ validKeys by decide)
        | exact (show (("07", "03") : String × String) ∈ validKeys by decide)
  · rw [List.mem_map] at ha
    obtain ⟨ic, hic, rfl⟩ := ha
    refine ⟨?_, Or.inr (Or.inr rfl)⟩
    fin_cases hic <;>
      first
      | exact (show (("08", "01") : String × String) ∈ validKeys by decide)
      | exact (show (("08", "02") : String × String) ∈ validKeys by decide)
      | exact (show (("08", "03") : String × String) ∈ validKeys by decide)
      | exact (show (("08", "04") : String × String) ∈ validKeys by decide)

theorem tunnelRingAdds_mem (t : Tunnel) :
    ∀ a ∈ tunnelRingAdds t,
      ((a.d, a.i) ∈ validKeys ∧ (a.d = "06" ∨ a.d = "07" ∨ a.d = "08")) := by
  intro a ha
  unfold tunnelRingAdds at ha
  split at ha
  · rw [List.mem_flatMap] at ha
    obtain ⟨r, -, ha⟩ := ha
    exact ringAdds_mem t r a ha
  · cases ha

theorem tunnelAdds_valid (t : Tunnel) :
    ∀ a ∈ tunnelAdds t, ((a.d, a.i) : String × String) ∈ validKeys := by
  intro a ha
  unfold tunnelAdds at ha
  rw [List.mem_append] at ha
  rcases ha with ha | ha
  · rw [List.mem_append] at ha
    rcases ha with ha | ha
    · exact (portalAdds_mem a ha).1
    · rw [List.mem_flatMap] at ha
      obtain ⟨seg, -, ha⟩ := ha
      exact (segmentAdds_mem (dirSign t) seg a ha).1
  · exact (tunnelRingAdds_mem t a ha).1

theorem foldl_add_eq_sum {α : Type} (f : α → ℕ) :
    ∀ (l : List α) (acc : ℕ), l.foldl (fun a x => a + f x) acc = acc + (l.map f).sum := by
  intro l
  induction l with
  | nil => intro acc; simp
  | cons a t ih =>
    intro acc
    show t.foldl _ (acc + f a) = _
    rw [ih]
    simp [Nat.add_assoc]

theorem length_flatMap_eq {α β : Type} (f : α → List β) :
    ∀ l : List α, (l.flatMap f).length = (l.map (fun a => (f a).length)).sum := by
  intro l
  induction l with
  | nil => rfl
  | cons a t ih => simp [List.flatMap_cons, ih]

/-! ### Claim C6: aggregation invariant -/

/-- Claim C6: in every computed result, each tunnel's per-division subtotal
(the `summary` entry, summed over the division's item batch lists) equals
the number of generated lots whose division name matches; the tunnel grand
total (`合计`, the sum of the division subtotals by definition) equals the
total number of lots generated for the tunnel; and the project grand total
equals the sum of the tunnel grand totals, i.e. the length of the flat
project-wide batch list. -/
theorem C6_aggregation_invariant :
    (∀ t : Tunnel,
      (∀ d ∈ divisionCodes,
        divisionSubtotal (calculate_single_tunnel t) d =
          countDivName (calculate_single_tunnel t) (divName d)) ∧
      tunnelGrandTotal (calculate_single_tunnel t) =
        (calculate_single_tunnel t).all_batches.length) ∧
    (∀ p : Project, calculate_grand_total p = (calculate_all_batches p).length) := by
  have hsub : ∀ (t : Tunnel) (d : String),
      divisionSubtotal (calculate_single_tunnel t) d =
        ((divItems d).map (fun it =>
          ((tunnelAdds t).filter (fun a => a.d = d ∧ a.i = it.1)).length)).sum := by
    intro t d
    unfold divisionSubtotal
    refine congrArg List.sum (List.map_congr_left (fun it _ => ?_))
    rw [calc_divisions, List.length_map]
  have htot : ∀ t : Tunnel,
      tunnelGrandTotal (calculate_single_tunnel t) =
        (calculate_single_tunnel t).all_batches.length := by
    intro t
    unfold tunnelGrandTotal
    rw [calc_all_batches, List.length_map]
    rw [show (DIVISIONS.map (fun e => divisionSubtotal (calculate_single_tunnel t) e.1)) =
        DIVISIONS.map (fun e => ((divItems e.1).map (fun it =>
          ((tunnelAdds t).filter (fun a => a.d = e.1 ∧ a.i = it.1)).length)).sum) from
      List.map_congr_left (fun e _ => hsub t e.1)]
    exact sum_divisions_filter _ (tunnelAdds_valid t)
  refine ⟨fun t => ⟨fun d hd => ?_, htot t⟩, fun p => ?_⟩
  · rw [hsub, countDivName_calc, sum_items_filter d hd _ (tunnelAdds_valid t)]
  · unfold calculate_grand_total calculate_all_batches
    rw [foldl_add_eq_sum, length_flatMap_eq]
    rw [Nat.zero_add]
    exact congrArg List.sum (List.map_congr_left (fun t _ => htot t))

/-- Claim C6, witness: the division-02 subtotal of a concrete tunnel
equals the count of its lots recorded under the division-02 name. -/
theorem C6_aggregation_invariant_witness :
    divisionSubtotal (calculate_single_tunnel degenerateTunnel) "02" =
      countDivName (calculate_single_tunnel degenerateTunnel) (divName "02") :=
  (C6_aggregation_invariant.1 degenerateTunnel).1 "02" (by decide)

/-! ### Claim C5: fixed portal / advance-support lot counts -/

theorem filter_portal (t : Tunnel) (d i : String) (hd : d = "02" ∨ d = "03") :
    (tunnelAdds t).filter (fun a => a.d = d ∧ a.i = i) =
      portalAdds.filter (fun a => a.d = d ∧ a.i = i) := by
  unfold tunnelAdds
  rw [List.filter_append, List.filter_append]
  have h1 : (t.segments.flatMap (segmentAdds (dirSign t))).filter
      (fun a => a.d = d ∧ a.i = i) = [] := by
    rw [List.filter_eq_nil_iff]
    intro a ha
    rw [List.mem_flatMap] at ha
    obtain ⟨seg, -, ha⟩ := ha
    have h2 := (segmentAdds_mem (dirSign t) seg a ha).2
    simp only [decide_eq_true_eq]
    rintro ⟨h3, -⟩
    subst h3
    rcases h2 with h2 | h2 <;> rcases hd with hd | hd <;> rw [h2] at hd <;>
      exact absurd hd (by decide)
  have h2 : (tunnelRingAdds t).filter (fun a => a.d = d ∧ a.i = i) = [] := by
    rw [List.filter_eq_nil_iff]
    intro a ha
    have h2 := (tunnelRingAdds_mem t a ha).2
    simp only [decide_eq_true_eq]
    rintro ⟨h3, -⟩
    subst h3
    rcases h2 with h2 | h2 | h2 <;> rcases hd with hd | hd <;> rw [h2] at hd <;>
      exact absurd hd (by decide)
  rw [h1, h2, List.append_nil, List.append_nil]

theorem seq_remark_portal (t : Tunnel) (d i : String) (hd : d = "02" ∨ d = "03") :
    ((calculate_single_tunnel t).all_batches.filter
        (fun b => b.d = d ∧ b.i = i)).map (fun b => (b.seq, b.remark)) =
      (portalAdds.filter (fun a => a.d = d ∧ a.i = i)).map (fun a => (a.seq, a.remark)) := by
  rw [calc_all_batches, List.filter_map, List.map_map]
  have hc : List.filter ((fun b : InspectionBatch => decide (b.d = d ∧ b.i = i)) ∘
        mkBatch t.name t.id) (tunnelAdds t) =
      List.filter (fun a : AddSpec => decide (a.d = d ∧ a.i = i)) (tunnelAdds t) :=
    List.filter_congr (fun a _ => rfl)
  rw [hc, filter_portal t d i hd]
  exact List.map_congr_left (fun a _ => rfl)

theorem portalAdds_zero_range : ∀ a ∈ portalAdds, a.startM = 0 ∧ a.endM = 0 := by decide

theorem roundTo3_zero : roundTo3 0 = 0 := by
  unfold roundTo3 ratRound
  rw [ratFloor_eq]
  norm_num

/-- Claim C5: for every tunnel, regardless of length or segment list, the
portal-works (02) and advance-support (03) divisions emit fixed lot
counts: 2 per single-instance item (sequence 1 = entry `进洞口`,
2 = exit `出洞口`), 6 for each multi-part item (sequences 1–3 entry
sub-items, 4–6 exit sub-items), every such lot rendered with the
placeholder chainage `"K0+000"` and zero length. -/
theorem C5_portal_fixed_counts (t : Tunnel) :
    (countDI (calculate_single_tunnel t) "02" "01" = 2 ∧
     countDI (calculate_single_tunnel t) "02" "04" = 2 ∧
     countDI (calculate_single_tunnel t) "03" "01" = 2 ∧
     countDI (calculate_single_tunnel t) "03" "02" = 2 ∧
     countDI (calculate_single_tunnel t) "03" "03" = 2 ∧
     countDI (calculate_single_tunnel t) "02" "02" = 6 ∧
     countDI (calculate_single_tunnel t) "02" "03" = 6) ∧
    (((calculate_single_tunnel t).all_batches.filter
        (fun b => b.d = "02" ∧ b.i = "01")).map (fun b => (b.seq, b.remark)) =
      [(1, "进洞口"), (2, "出洞口")] ∧
     ((calculate_single_tunnel t).all_batches.filter
        (fun b => b.d = "02" ∧ b.i = "02")).map (fun b => (b.seq, b.remark)) =
      [(1, "进洞口-锚杆"), (4, "出洞口-锚杆"), (2, "进洞口-钢筋网"), (5, "出洞口-钢筋网"),
       (3, "进洞口-喷射混凝土"), (6, "出洞口-喷射混凝土")] ∧
     ((calculate_single_tunnel t).all_batches.filter
        (fun b => b.d = "02" ∧ b.i = "03")).map (fun b => (b.seq, b.remark)) =
      [(1, "进洞口-模板"), (4, "出洞口-模板"), (2, "进洞口-钢筋"), (5, "出洞口-钢筋"),
       (3, "进洞口-混凝土"), (6, "出洞口-混凝土")]) ∧
    (∀ b ∈ (calculate_single_tunnel t).all_batches,
      (b.d = "02" ∨ b.d = "03") → b.mileage_str = "K0+000" ∧ b.length = 0) := by
  have hcount : ∀ d i : String, (d = "02" ∨ d = "03") →
      countDI (calculate_single_tunnel t) d i =
        (portalAdds.filter (fun a => a.d = d ∧ a.i = i)).length := by
    intro d i hd
    rw [countDI_calc, filter_portal t d i hd]
  refine ⟨⟨?_, ?_, ?_, ?_, ?_, ?_, ?_⟩, ⟨?_, ?_, ?_⟩, ?_⟩
  · rw [hcount _ _ (Or.inl rfl)]; decide
  · rw [hcount _ _ (Or.inl rfl)]; decide
  · rw [hcount _ _ (Or.inr rfl)]; decide
  · rw [hcount _ _ (Or.inr rfl)]; decide
  · rw [hcount _ _ (Or.inr rfl)]; decide
  · rw [hcount _ _ (Or.inl rfl)]; decide
  · rw [hcount _ _ (Or.inl rfl)]; decide
  · rw [seq_remark_portal t _ _ (Or.inl rfl)]; decide
  · rw [seq_remark_portal t _ _ (Or.inl rfl)]; decide
  · rw [seq_remark_portal t _ _ (Or.inl rfl)]; decide
  · intro b hb hd
    rw [calc_all_batches, List.mem_map] at hb
    obtain ⟨a, ha, rfl⟩ := hb
    have had : a.d = "02" ∨ a.d = "03" := hd
    have hap : a ∈ portalAdds := by
      unfold tunnelAdds at ha
      rw [List.mem_append] at ha
      rcases ha with ha | ha
      · rw [List.mem_append] at ha
        rcases ha with ha | ha
        · exact ha
        · rw [List.mem_flatMap] at ha
          obtain ⟨seg, -, ha⟩ := ha
          have h2 := (segmentAdds_mem (dirSign t) seg a ha).2
          rcases h2 with h2 | h2 <;> rcases had with had | had <;> rw [h2] at had <;>
            exact absurd had (by decide)
      · have h2 := (tunnelRingAdds_mem t a ha).2
        rcases h2 with h2 | h2 | h2 <;> rcases had with had | had <;> rw [h2] at had <;>
          exact absurd had (by decide)
    obtain ⟨hs0, he0⟩ := portalAdds_zero_range a hap
    constructor
    · show (if a.startM = 0 ∧ a.endM = 0 then "K0+000"
        else format_mileage a.startM ++ "~" ++ format_mileage a.endM) = "K0+000"
      rw [if_pos ⟨hs0, he0⟩]
    · show roundTo3 (if a.startM = 0 ∧ a.endM = 0 then 0 else |a.endM - a.startM|) = 0
      rw [if_pos ⟨hs0, he0⟩, roundTo3_zero]

/-- Claim C5, witness: the single-instance portal item 02-01 of a concrete
tunnel yields exactly 2 lots. -/
theorem C5_portal_fixed_counts_witness :
    countDI (calculate_single_tunnel degenerateTunnel) "02" "01" = 2 :=
  (C5_portal_fixed_counts degenerateTunnel).1.1

/-! ### Claim C4: per-cycle lot decomposition -/

/-- Claim C4: one generated excavation cycle of a non-portal segment emits
exactly 20 lots for a CD-method segment (4 steps × (1 excavation + 4
primary-support sub-items)) and exactly 10 for a bench-method segment
(2 steps × 5); within a cycle, each step's five lots share the sequence
number `(cycle_index − 1) * steps_per_cycle + step_index` (1-based; here
the 0-based loop variable `c` is `cycle_index − 1`), provided the
segment's stored `steps` field matches its method (4 for CD, 2 for
bench); and each step's lots are one division-04 excavation lot followed
by four division-05 support lots. -/
theorem C4_per_cycle_lots (dsign : ℚ) (seg : TunnelSegment) (c : ℕ) :
    (seg.method = "CD法" →
      ((cycleAdds dsign seg c).length = 20 ∧
       (seg.steps = 4 →
         (cycleAdds dsign seg c).map (fun a => a.seq) =
           (List.range 4).flatMap (fun s => List.replicate 5 ((c : ℤ) * 4 + (s : ℤ) + 1))))) ∧
    (seg.method = "台阶法" →
      ((cycleAdds dsign seg c).length = 10 ∧
       (seg.steps = 2 →
         (cycleAdds dsign seg c).map (fun a => a.seq) =
           (List.range 2).flatMap (fun s => List.replicate 5 ((c : ℤ) * 2 + (s : ℤ) + 1))))) ∧
    ((cycleAdds dsign seg c).map (fun a => a.d) =
      (List.range (segStepNames seg).length).flatMap
        (fun _ => "04" :: List.replicate 4 "05")) := by
  refine ⟨fun hm => ⟨?_, fun hs => ?_⟩, fun hm => ⟨?_, fun hs => ?_⟩, ?_⟩
  · simp [cycleAdds, segStepNames, hm, List.enum, List.enumFrom]
  · simp [cycleAdds, segStepNames, hm, hs, List.range_succ, List.enum, List.enumFrom]
  · have hm' : ¬(seg.method = "CD法") := by rw [hm]; decide
    simp [cycleAdds, segStepNames, hm', List.enum, List.enumFrom]
  · have hm' : ¬(seg.method = "CD法") := by rw [hm]; decide
    simp [cycleAdds, segStepNames, hm', hs, List.range_succ, List.enum, List.enumFrom]
  · by_cases hm : seg.method = "CD法" <;>
      simp [cycleAdds, segStepNames, hm, List.range_succ, List.enum, List.enumFrom]

/-- Claim C4, witness: concrete CD and bench cycles with matching `steps`
fields emit 20 and 10 lots. -/
theorem C4_per_cycle_lots_witness :
    (cycleAdds 1 cdSegment33 0).length = 20 ∧
    (cycleAdds 1 benchSegment182 0).length = 10 :=
  ⟨((C4_per_cycle_lots 1 cdSegment33 0).1 rfl).1,
   ((C4_per_cycle_lots 1 benchSegment182 0).2.1 rfl).1⟩

/-! ### Claim C1: cycle counts use floor (int truncation), not ceil -/

theorem length_filter_flatMap {α β : Type} (f : α → List β) (p : β → Bool) :
    ∀ l : List α,
      ((l.flatMap f).filter p).length = (l.map (fun x => ((f x).filter p).length)).sum := by
  intro l
  induction l with
  | nil => rfl
  | cons a t ih => simp [List.flatMap_cons, List.filter_append, ih]

theorem sum_map_const {α : Type} (l : List α) (k : ℕ) :
    (l.map (fun _ => k)).sum = l.length * k := by
  induction l with
  | nil => simp
  | cons a t ih =>
    simp only [List.map_cons, List.sum_cons, List.length_cons, ih]
    ring

theorem cycleAdds_filter_04 (dsign : ℚ) (seg : TunnelSegment) (c : ℕ) :
    ((cycleAdds dsign seg c).filter (fun a => a.d = "04")).length =
      (segStepNames seg).length := by
  by_cases hm : seg.method = "CD法" <;>
    simp [cycleAdds, segStepNames, hm, List.enum, List.enumFrom]

theorem segmentAdds_count_04 (dsign : ℚ) (seg : TunnelSegment)
    (hm : seg.method = "CD法" ∨ seg.method = "台阶法") :
    specCountD (segmentAdds dsign seg) "04" = (segStepNames seg).length * segCycles seg := by
  unfold specCountD segmentAdds
  rw [if_pos hm, length_filter_flatMap]
  rw [List.map_congr_left (fun c _ => cycleAdds_filter_04 dsign seg c), sum_map_const,
    List.length_range]
  ring

theorem segCycles_floor (seg : TunnelSegment) (hadv : 0 < seg.advance_per_cycle)
    (hlen : 0 ≤ seg.length) :
    segCycles seg = (⌊seg.length / seg.advance_per_cycle⌋).toNat := by
  unfold segCycles pyTrunc
  rw [if_pos hadv, if_pos (div_nonneg hlen hadv.le), ratFloor_eq]

/-- Claim C1, amended: for every CD-method or bench-method segment with
positive advance and non-negative length, the number of generated
excavation cycles is `floor(length / advance_per_cycle)` — the Python
`int(...)` truncation, NOT the ceiling, and with no table-default
substitution (a non-positive advance yields zero cycles, see C8) — so the
division-04 lot count is `steps × floor(length / advance)`; concretely the
bench segment of length 182.908 m with advance 1.6 m generates 114 cycles
(not 115) and the CD segment of length 33 m with advance 0.8 m generates
41 (not 42). -/
theorem C1_cycle_count_floor :
    (∀ (dsign : ℚ) (seg : TunnelSegment),
      0 < seg.advance_per_cycle → 0 ≤ seg.length →
      (seg.method = "CD法" ∨ seg.method = "台阶法") →
      segCycles seg = (⌊seg.length / seg.advance_per_cycle⌋).toNat ∧
      specCountD (segmentAdds dsign seg) "04" =
        (segStepNames seg).length * (⌊seg.length / seg.advance_per_cycle⌋).toNat) ∧
    segCycles benchSegment182 = 114 ∧ segCycles cdSegment33 = 41 := by
  refine ⟨fun dsign seg hadv hlen hm => ?_, ?_, ?_⟩
  · have h1 := segCycles_floor seg hadv hlen
    refine ⟨h1, ?_⟩
    rw [segmentAdds_count_04 dsign seg hm, h1]
  · norm_num [segCycles, pyTrunc, ratFloor_eq, benchSegment182, Int.floor_eq_iff]
    rfl
  · norm_num [segCycles, pyTrunc, ratFloor_eq, cdSegment33, Int.floor_eq_iff]
    rfl

/-- Claim C1, witness: the general floor rule applied to the concrete
bench segment. -/
theorem C1_cycle_count_floor_witness :
    segCycles benchSegment182 = (⌊benchSegment182.length /
      benchSegment182.advance_per_cycle⌋).toNat :=
  (C1_cycle_count_floor.1 1 benchSegment182 (by norm_num [benchSegment182])
    (by norm_num [benchSegment182]) (Or.inr rfl)).1

/-- Claim C1, counterexample: the claim's ceiling values 115 and 42 are
wrong on the code — the generated cycle counts are 114 and 41, while the
ceiling of the same quotients is indeed 115 and 42. -/
theorem C1_counterexample_ceil :
    segCycles benchSegment182 = 114 ∧
    (⌈benchSegment182.length / benchSegment182.advance_per_cycle⌉).toNat = 115 ∧
    segCycles cdSegment33 = 41 ∧
    (⌈cdSegment33.length / cdSegment33.advance_per_cycle⌉).toNat = 42 := by
  refine ⟨?_, ?_, ?_, ?_⟩
  · norm_num [segCycles, pyTrunc, ratFloor_eq, benchSegment182, Int.floor_eq_iff]
    rfl
  · norm_num [benchSegment182]
    rw [show (⌈(45727 / 400 : ℚ)⌉) = 115 from by rw [Int.ceil_eq_iff] <;> norm_num]
    rfl
  · norm_num [segCycles, pyTrunc, ratFloor_eq, cdSegment33, Int.floor_eq_iff]
    rfl
  · norm_num [cdSegment33]
    rw [show (⌈(165 / 4 : ℚ)⌉) = 42 from by rw [Int.ceil_eq_iff] <;> norm_num]
    rfl

/-! ### Claim C3: trolley-length ring generation -/

theorem ringAdds_range (t : Tunnel) (r : ℕ) :
    ∀ a ∈ ringAdds t r,
      a.startM = ringBaseStart t + (r : ℚ) * t.trolley_length * dirSign t ∧
      a.endM = (if dirSign t = 1
        then min (ringBaseStart t + (r : ℚ) * t.trolley_length * dirSign t +
          t.trolley_length) (ringBaseEnd t)
        else max (ringBaseStart t + (r : ℚ) * t.trolley_length * dirSign t -
          t.trolley_length) (ringBaseEnd t)) := by
  intro a ha
  simp only [ringAdds] at ha
  rw [List.mem_append] at ha
  rcases ha with ha | ha
  · rw [List.mem_append] at ha
    rcases ha with ha | ha
    · rw [List.mem_flatMap] at ha
      obtain ⟨e, -, ha⟩ := ha
      rcases List.mem_cons.mp ha with rfl | ha
      · exact ⟨rfl, rfl⟩
      · rcases List.mem_cons.mp ha with rfl | ha
        · exact ⟨rfl, rfl⟩
        · cases ha
    · rw [List.mem_map] at ha
      obtain ⟨ic, -, rfl⟩ := ha
      exact ⟨rfl, rfl⟩
  · rw [List.mem_map] at ha
    obtain ⟨ic, -, rfl⟩ := ha
    exact ⟨rfl, rfl⟩

theorem ringAdds_filter_0701 (t : Tunnel) (r : ℕ) :
    ((ringAdds t r).filter (fun a => a.d = "07" ∧ a.i = "01")).length = 1 := by
  simp [ringAdds, List.enum, List.enumFrom, List.filter_append]

theorem dirSign_cases (t : Tunnel) : dirSign t = 1 ∨ dirSign t = -1 := by
  unfold dirSign
  by_cases h : t.direction = "正向"
  · rw [if_pos h]; exact Or.inl rfl
  · rw [if_neg h]; exact Or.inr rfl

/-- Claim C3: for every tunnel with positive trolley length (and a
consistent `total_length = |end − start|`, the spec's Tunnel invariant),
the lining/waterproofing/ancillary pass generates exactly
`ceil(total_length / trolley_length)` rings — one division 07-01
(waterproof membrane) lot per ring — and ring `r` (0-based) spans from
`base + r·trolley·dir`, walking one trolley length in the travel
direction, with the final ring's end clamped to the tunnel's end
extremity. -/
theorem C3_trolley_rings (t : Tunnel) (htrolley : 0 < t.trolley_length)
    (htotal : t.total_length = |t.end_mileage - t.start_mileage|)
    (hpos : 0 < t.total_length) :
    tunnelRings t = (⌈t.total_length / t.trolley_length⌉).toNat ∧
    ((tunnelRingAdds t).filter (fun a => a.d = "07" ∧ a.i = "01")).length =
      (⌈t.total_length / t.trolley_length⌉).toNat ∧
    (∀ r, r < tunnelRings t → ∀ a ∈ ringAdds t r,
      a.startM = ringBaseStart t + (r : ℚ) * t.trolley_length * dirSign t ∧
      a.endM = (if r + 1 = tunnelRings t then ringBaseEnd t
        else a.startM + t.trolley_length * dirSign t)) := by
  set T := t.trolley_length with hT
  set x := t.total_length / T with hx
  have hrings_eq : tunnelRings t = (⌈x⌉).toNat := by
    unfold tunnelRings
    rw [ratCeil_eq]
  have hxpos : 0 < x := div_pos hpos htrolley
  have hceil_pos : 0 < ⌈x⌉ := Int.ceil_pos.mpr hxpos
  have hringsZ : ((tunnelRings t : ℤ)) = ⌈x⌉ := by
    rw [hrings_eq]
    exact Int.toNat_of_nonneg hceil_pos.le
  have hringsQ : ((tunnelRings t : ℚ)) = ((⌈x⌉ : ℤ) : ℚ) := by
    exact_mod_cast congrArg (fun z : ℤ => ((z : ℚ))) hringsZ
  have hub : t.total_length ≤ (tunnelRings t : ℚ) * T := by
    have h1 : x ≤ ((⌈x⌉ : ℤ) : ℚ) := Int.le_ceil x
    have h2 : x * T = t.total_length := div_mul_cancel₀ _ (ne_of_gt htrolley)
    calc t.total_length = x * T := h2.symm
      _ ≤ ((⌈x⌉ : ℤ) : ℚ) * T := mul_le_mul_of_nonneg_right h1 htrolley.le
      _ = (tunnelRings t : ℚ) * T := by rw [hringsQ]
  have hlb : ∀ r : ℕ, r + 1 < tunnelRings t → ((r : ℚ) + 1) * T ≤ t.total_length := by
    intro r hr
    have h2 : ((r : ℚ)) + 2 ≤ (tunnelRings t : ℚ) := by exact_mod_cast hr
    have h3 : ((tunnelRings t : ℚ)) - 1 < x := by
      rw [hringsQ]
      have := Int.ceil_lt_add_one x
      linarith
    have h4 : ((r : ℚ) + 1) < x := by linarith
    have h5 : x * T = t.total_length := div_mul_cancel₀ _ (ne_of_gt htrolley)
    calc ((r : ℚ) + 1) * T ≤ x * T := mul_le_mul_of_nonneg_right h4.le htrolley.le
      _ = t.total_length := h5
  refine ⟨hrings_eq, ?_, ?_⟩
  · unfold tunnelRingAdds
    rw [if_pos htrolley, length_filter_flatMap,
      List.map_congr_left (fun r _ => ringAdds_filter_0701 t r), sum_map_const,
      List.length_range, hrings_eq]
    ring
  · intro r hr a ha
    obtain ⟨hs, he⟩ := ringAdds_range t r a ha
    refine ⟨hs, ?_⟩
    rcases dirSign_cases t with hdir | hdir
    · have hSE : ringBaseEnd t - ringBaseStart t = t.total_length := by
        unfold ringBaseStart ringBaseEnd
        rw [if_pos hdir, if_pos hdir, htotal, max_sub_min_eq_abs, abs_sub_comm]
      rw [he, if_pos hdir, hs, hdir]
      have hcast : ((r : ℚ) + 1) ≤ (tunnelRings t : ℚ) := by exact_mod_cast hr
      by_cases hfin : r + 1 = tunnelRings t
      · rw [if_pos hfin]
        have hrT : ((r : ℚ) + 1) * T = (tunnelRings t : ℚ) * T := by
          rw [show ((r : ℚ) + 1) = ((tunnelRings t : ℚ)) by exact_mod_cast hfin]
        refine min_eq_right ?_
        nlinarith [hub, hSE]
      · rw [if_neg hfin]
        have hlt : r + 1 < tunnelRings t := lt_of_le_of_ne hr hfin
        have h1 := hlb r hlt
        have h2 : ringBaseStart t + (r : ℚ) * T * 1 + T ≤ ringBaseEnd t := by
          nlinarith [hSE]
        rw [min_eq_left h2]
        ring
    · have hSE : ringBaseStart t - ringBaseEnd t = t.total_length := by
        unfold ringBaseStart ringBaseEnd
        rw [hdir, if_neg (by norm_num), if_neg (by norm_num), htotal,
          max_sub_min_eq_abs, abs_sub_comm]
      rw [he, if_neg (by rw [hdir]; norm_num), hs, hdir]
      by_cases hfin : r + 1 = tunnelRings t
      · rw [if_pos hfin]
        have hrT : ((r : ℚ) + 1) * T = (tunnelRings t : ℚ) * T := by
          rw [show ((r : ℚ) + 1) = ((tunnelRings t : ℚ)) by exact_mod_cast hfin]
        refine max_eq_right ?_
        nlinarith [hub, hSE]
      · rw [if_neg hfin]
        have hlt : r + 1 < tunnelRings t := lt_of_le_of_ne hr hfin
        have h1 := hlb r hlt
        have hgoal : ringBaseEnd t ≤ ringBaseStart t + (r : ℚ) * T * (-1) - T := by
          nlinarith [hSE]
        rw [max_eq_left hgoal]
        ring

/-- Claim C3, witness: the demo-shaped main-line tunnel (total length
1162.898 m, trolley 12 m) has ring count `ceil(1162.898 / 12) = 97`. -/
theorem C3_trolley_rings_witness :
    tunnelRings zkTunnel = 97 := by
  have h := (C3_trolley_rings zkTunnel (by norm_num [zkTunnel])
    (by norm_num [zkTunnel]
        rw [abs_of_pos (by norm_num : (0 : ℚ) < 581449 / 500)])
    (by norm_num [zkTunnel])).1
  rw [h]
  norm_num [zkTunnel]
  rw [show (⌈(581449 / 6000 : ℚ)⌉) = 97 from by rw [Int.ceil_eq_iff] <;> norm_num]
  rfl

/-! ### Claim C8: degenerate-input semantics -/

/-- Claim C8, amended: the Calculator is total on degenerate inputs, but in
a different way than claimed for the trolley: a segment whose
`advance_per_cycle` is non-positive is skipped for cycle generation (zero
cycles, no division, no exception — and no method-table default: the
source tests the segment's own `advance_per_cycle` only), while a tunnel
whose `trolley_length` is non-positive skips the whole
lining/waterproofing/ancillary pass outright — NO per-standard default is
substituted and no such lots are generated. -/
theorem C8_degenerate_inputs :
    (∀ (dsign : ℚ) (seg : TunnelSegment),
      seg.advance_per_cycle ≤ 0 → segmentAdds dsign seg = []) ∧
    (∀ t : Tunnel, t.trolley_length ≤ 0 → tunnelRingAdds t = []) := by
  constructor
  · intro dsign seg h
    have h0 : segCycles seg = 0 := by
      unfold segCycles
      rw [if_neg (not_lt.mpr h)]
    unfold segmentAdds
    split
    · rw [h0]
      rfl
    · rfl
  · intro t h
    unfold tunnelRingAdds
    rw [if_neg (not_lt.mpr h)]

/-- Claim C8, witness: a concrete zero-advance segment contributes no
cycle lots, and a concrete zero-trolley tunnel contributes no ring lots. -/
theorem C8_degenerate_inputs_witness :
    segmentAdds 1 degenerateSegment = [] ∧ tunnelRingAdds degenerateTunnel = [] :=
  ⟨C8_degenerate_inputs.1 1 degenerateSegment (by norm_num [degenerateSegment]),
   C8_degenerate_inputs.2 degenerateTunnel (by norm_num [degenerateTunnel])⟩

/-- Claim C8, counterexample: `degenerateTunnel` has `trolley_length = 0`
and positive `total_length = 100`, yet the Calculator generates zero
secondary-lining (06), waterproofing (07) and ancillary (08) lots for it —
no default trolley length is substituted, contradicting the claim that
such lots are still generated. -/
theorem C8_counterexample_no_default_trolley :
    degenerateTunnel.trolley_length = 0 ∧
    degenerateTunnel.total_length = 100 ∧
    countDI (calculate_single_tunnel degenerateTunnel) "06" "01" = 0 ∧
    countDI (calculate_single_tunnel degenerateTunnel) "07" "01" = 0 ∧
    countDI (calculate_single_tunnel degenerateTunnel) "08" "01" = 0 := by
  have hring : tunnelRingAdds degenerateTunnel = [] := by
    unfold tunnelRingAdds
    rw [if_neg (by norm_num [degenerateTunnel])]
  have hadds : tunnelAdds degenerateTunnel = portalAdds := by
    unfold tunnelAdds
    rw [hring, show degenerateTunnel.segments = [] from rfl]
    simp
  refine ⟨rfl, rfl, ?_, ?_, ?_⟩ <;> rw [countDI_calc, hadds] <;> decide

/-! ### Claim C10: lot codes are not unique within a tunnel -/

/-- Claim C10: the excavation/support sequence number restarts at 1 for
each segment, so a tunnel with two bench-method segments yields two
distinct lots — one per segment, with different remarks — carrying the
byte-identical code `"ZK-04-02-001"`. -/
theorem C10_duplicate_codes :
    (((calculate_single_tunnel twinSegTunnel).all_batches.filter
        (fun b => b.code = "ZK-04-02-001")).map (fun b => b.remark)) =
      ["甲-上台阶", "乙-上台阶"] ∧
    2 ≤ ((calculate_single_tunnel twinSegTunnel).all_batches.filter
        (fun b => b.code = "ZK-04-02-001")).length := by
  have hA : segCycles twinSegA = 1 := by
    norm_num [segCycles, twinSegA, pyTrunc, ratFloor_eq]
  have hB : segCycles twinSegB = 1 := by
    norm_num [segCycles, twinSegB, pyTrunc, ratFloor_eq]
  have hring : tunnelRingAdds twinSegTunnel = [] := by
    unfold tunnelRingAdds
    rw [if_neg (by norm_num [twinSegTunnel])]
  have hadds : tunnelAdds twinSegTunnel =
      portalAdds ++ (cycleAdds 1 twinSegA 0 ++ cycleAdds 1 twinSegB 0) ++ [] := by
    unfold tunnelAdds
    rw [hring, show twinSegTunnel.segments = [twinSegA, twinSegB] from rfl,
      show dirSign twinSegTunnel = 1 from by decide]
    congr 1
    congr 1
    show segmentAdds 1 twinSegA ++ (segmentAdds 1 twinSegB ++ []) = _
    rw [show segmentAdds 1 twinSegA = cycleAdds 1 twinSegA 0 from by
        unfold segmentAdds
        rw [if_pos (show twinSegA.method = "CD法" ∨ twinSegA.method = "台阶法" by decide),
          hA]
        show List.flatMap [0] (cycleAdds 1 twinSegA) = cycleAdds 1 twinSegA 0
        simp,
      show segmentAdds 1 twinSegB = cycleAdds 1 twinSegB 0 from by
        unfold segmentAdds
        rw [if_pos (show twinSegB.method = "CD法" ∨ twinSegB.method = "台阶法" by decide),
          hB]
        show List.flatMap [0] (cycleAdds 1 twinSegB) = cycleAdds 1 twinSegB 0
        simp]
    simp
  rw [calc_all_batches, hadds]
  constructor <;> decide

/-! ### Claim C7 — JSON round-trip persistence -/

theorem segFromJson_segToJson (s : TunnelSegment) :
    segFromJson (segToJson s) = some s := by
  simp [segFromJson, segToJson, jLookup, fieldD, asStr, asNum, asInt,
    List.find?, Rat.den_intCast, Rat.num_intCast]

theorem mapM_loop_some {α β : Type} (f : α → β) (g : β → Option α)
    (h : ∀ x, g (f x) = some x) :
    ∀ (l : List α) (acc : List α),
      List.mapM.loop g (l.map f) acc = some (acc.reverse ++ l)
  | [], acc => by simp [List.mapM.loop]
  | x :: xs, acc => by
    simp [List.mapM.loop, h x, mapM_loop_some f g h xs (x :: acc)]

theorem tunnelFromJson_tunnelToJson (t : Tunnel) :
    tunnelFromJson (tunnelToJson t) = some t := by
  simp [tunnelFromJson, tunnelToJson, jLookup, fieldD, asStr, asNum, asBool, asArr,
    List.find?, mapM_loop_some segToJson segFromJson segFromJson_segToJson]

/-- Claim C7: importing the JSON document produced by `export_project_to_json`
recovers the original `Project` exactly — in particular the tunnel count, each
tunnel's segment count, and every `Tunnel` and `TunnelSegment` field value are
preserved (field values are exact rationals here, so no floating-point
tolerance is needed). -/
theorem C7_json_roundtrip (now : String) (p : Project) :
    import_project_from_json now (export_project_to_json p) = some p := by
  simp [import_project_from_json, export_project_to_json, jLookup, fieldD, asStr, asArr,
    List.find?, mapM_loop_some tunnelToJson tunnelFromJson tunnelFromJson_tunnelToJson]

end TunnelInspection
